import Mathlib

/-!
The folder pull engine (`internal/model/puller.go`)

A shallow embedding of the puller of one synchronized folder, and the
properties of its orchestrator, worker stages and control loop.

Modelling conventions.

* Every call the Go code makes to a collaborator (the operating system, the
  index, the hasher, the versioner, the shared per-file state, channels) is a
  constructor of `Call`.  A routine returns the list of calls it performed, in
  program order, together with the new state of the environment.
* The environment is a `World σ`: for an arbitrary state type `σ` it fixes the
  result of every call and the next state.  Theorems quantify over all worlds,
  so they hold for every behaviour of the collaborators, including the effect
  of other goroutines on what a routine observes.
* Debug logging (`if debug { ... }`) and the informational log lines are left
  out; the no-progress warning of `Serve` is kept because a property is about it.
* `int`, `int64` and `uint64` values are `Nat`/`Int`; the only arithmetic that
  can wrap, the `time.Duration` product in `clean`, is reduced explicitly.
-/

namespace Syncthing

set_option maxHeartbeats 1000000

/-! ## Data model -/

/-- The `protocol.BlockInfo` record: offset, size and content hash (a byte string). -/
structure BlockInfo where
  Offset : Int
  Size : Nat
  Hash : List Nat
  deriving DecidableEq, Repr

/-- The `protocol.FileInfo` record, restricted to the fields the puller reads. -/
structure FileInfo where
  Name : String
  Flags : Nat
  Modified : Int
  Blocks : List BlockInfo
  deriving DecidableEq, Repr

/-- Go `error` values, as far as the puller distinguishes them:
`os.IsNotExist`, the sentinel `errNoDevice`, and everything else. -/
inductive GoError where
  | notExist
  | noDevice
  | other (code : Nat)
  deriving DecidableEq, Repr

/-- The predicate `os.IsNotExist(err)`. -/
def GoError.IsNotExist : GoError → Bool
  | .notExist => true
  | _ => false

/-- The sentinel `errNoDevice = errors.New("no available source device")`. -/
def errNoDevice : GoError := GoError.noDevice

/-- A `protocol.DeviceID`; the zero value `protocol.DeviceID{}` is `0`. -/
abbrev DeviceID := Nat

/-- The fields that `handleFile` fills in when it builds a `sharedPullerState`
(lines 499-507).  The mutable part of the state (descriptor, counters, first
error, closed flag) lives in the environment. -/
structure sharedPullerState where
  file : FileInfo
  folder : String
  tempName : String
  realName : String
  copyTotal : Nat
  copyNeeded : Nat
  reused : Int
  deriving DecidableEq, Repr

/-- A `copyBlocksState`: the shared state and the blocks still to be obtained. -/
structure copyBlocksState where
  sharedPullerState : sharedPullerState
  blocks : List BlockInfo
  deriving DecidableEq, Repr

/-- A `pullBlockState`: the shared state and one block to fetch. -/
structure pullBlockState where
  sharedPullerState : sharedPullerState
  block : BlockInfo
  deriving DecidableEq, Repr

/-- The folder states passed to `setState`. -/
inductive FolderState where
  | FolderIdle
  | FolderScanning
  | FolderSyncing
  deriving DecidableEq, Repr

/-- The configuration fields of a `Puller`.  `versioner` tells whether
`p.versioner != nil`. -/
structure Puller where
  folder : String
  dir : String
  versioner : Bool
  ignorePerms : Bool
  lenientMtimes : Bool
  deriving DecidableEq, Repr

/-! ## Calls -/

/-- Every observable action of the puller: calls to collaborators with their
arguments, channel operations, and markers for entering the orchestrator's
own routines. -/
inductive Call where
  /-- The `events.Default.Log(events.ItemStarted, ...)` call. -/
  | itemStarted (folder item : String)
  /-- The `os.Stat(path)` call. -/
  | stat (path : String)
  /-- The `os.Mkdir(path, mode)` call. -/
  | mkdir (path : String) (mode : Nat)
  /-- The `os.Chmod(path, mode)` call. -/
  | chmod (path : String) (mode : Nat)
  /-- The `os.Chtimes(path, t, t)` call with `t = time.Unix(sec, 0)`. -/
  | chtimes (path : String) (sec : Int)
  /-- The `os.Remove(path)` call. -/
  | remove (path : String)
  /-- The `versioner.Archive(path)` call. -/
  | archive (path : String)
  /-- The `osutil.InWritableDir(fn, path)` call, `fn` applied to `path`. -/
  | inWritableDir (fn : Call)
  /-- The `osutil.Rename(src, dst)` call. -/
  | rename (src dst : String)
  /-- The `os.Open(path)` call. -/
  | osOpen (path : String)
  /-- The `scanner.Verify(fd, blockSize, blocks)` call followed by `fd.Close()`. -/
  | verify (path : String) (blockSize : Nat) (blocks : List BlockInfo)
  /-- The `scanner.HashFile(path, blockSize)` call. -/
  | hashFile (path : String) (blockSize : Nat)
  /-- The `model.CurrentFolderFile(folder, name)` call. -/
  | currentFolderFile (folder name : String)
  /-- The `model.updateLocal(folder, file)` call. -/
  | updateLocal (folder : String) (file : FileInfo)
  /-- The `files.WithNeed(protocol.LocalDeviceID, ...)` call. -/
  | withNeed (folder : String)
  /-- The `model.RemoteLocalVersion(folder)` call. -/
  | remoteLocalVersion (folder : String)
  /-- The `model.setState(folder, state)` call. -/
  | setState (folder : String) (st : FolderState)
  /-- The `model.availability(folder, name)` call. -/
  | availability (folder name : String)
  /-- The `activity.leastBusy(devices)` call. -/
  | leastBusy (devices : List DeviceID)
  /-- The `activity.using(device)` call. -/
  | using (device : DeviceID)
  /-- The `activity.done(device)` call. -/
  | done (device : DeviceID)
  /-- The `model.requestGlobal(device, folder, name, offset, size, hash)` call. -/
  | requestGlobal (device : DeviceID) (folder name : String) (offset : Int)
      (size : Nat) (hash : List Nat)
  /-- The `fd.WriteAt(buf, offset)` call on the temp file of a state. -/
  | writeAt (tempName : String) (buf : List Nat) (offset : Int)
  /-- The `state.failed()` call. -/
  | failed (s : sharedPullerState)
  /-- The `state.tempFile()` call. -/
  | tempFile (s : sharedPullerState)
  /-- The `state.earlyClose(context, err)` call. -/
  | earlyClose (s : sharedPullerState) (context : String) (err : GoError)
  /-- The `state.pullDone()` call. -/
  | pullDone (s : sharedPullerState)
  /-- The `state.finalClose()` call. -/
  | finalClose (s : sharedPullerState)
  /-- A send `copyChan <- cs`. -/
  | copyChanSend (cs : copyBlocksState)
  /-- A send `out <- state.sharedPullerState` to the finisher channel. -/
  | finisherChanSend (s : sharedPullerState)
  /-- Starting the copier, puller and finisher goroutines. -/
  | startRoutines (ncopiers npullers nfinishers : Nat)
  /-- The `close(copyChan)` statement. -/
  | closeCopyChan
  /-- The `copyWg.Wait()` call: returns when every copier has returned. -/
  | copyWgWait
  /-- The `close(pullChan)` statement. -/
  | closePullChan
  /-- The `pullWg.Wait()` call: returns when every puller has returned. -/
  | pullWgWait
  /-- The `close(finisherChan)` statement. -/
  | closeFinisherChan
  /-- The `doneWg.Wait()` call: returns when every finisher has returned. -/
  | doneWgWait
  /-- Entering `p.handleDir(file)`. -/
  | handleDir (file : FileInfo)
  /-- Entering `p.handleFile(file, copyChan, finisherChan)`. -/
  | handleFile (file : FileInfo)
  /-- Entering `p.shortcutFile(file)`. -/
  | shortcutFile (file : FileInfo)
  /-- Entering `p.deleteDir(file)`. -/
  | deleteDir (file : FileInfo)
  /-- Entering `p.deleteFile(file)`. -/
  | deleteFile (file : FileInfo)
  /-- Entering `p.pullerIteration(ncopiers, npullers, nfinishers)`. -/
  | pullerIteration
  /-- The no-progress warning `l.Warnf("Folder %q isn't making progress ...")`. -/
  | warnNoProgress (folder : String) (pause : Nat)
  /-- The `pullTimer.Reset(d)` call, `d` in nanoseconds. -/
  | pullTimerReset (d : Nat)
  /-- The `finder.Iterate(hash, ...)` call. -/
  | finderIterate (hash : List Nat)
  /-- Creating the descriptor cache of one file (lines 564-575). -/
  | newFdCache
  /-- The `fdCache.Get(path)` call. -/
  | fdCacheGet (path : String)
  /-- The `fdCache.Set(path, fd)` call. -/
  | fdCacheSet (path : String)
  /-- The `fdCache.Evict(fdCache.Len())` call. -/
  | fdCacheEvict
  /-- The `close(evictionChan)` statement. -/
  | closeEvictionChan
  /-- The `fd.ReadAt(buf, offset)` call on a source file, `size = len(buf)`. -/
  | readAt (path : String) (size : Nat) (offset : Int)
  /-- The `state.copiedFromOrigin()` call. -/
  | copiedFromOrigin (s : sharedPullerState)
  /-- The `state.copyDone()` call. -/
  | copyDone (s : sharedPullerState)
  /-- The `state.pullStarted()` call. -/
  | pullStarted (s : sharedPullerState)
  /-- A send `pullChan <- ps`. -/
  | pullChanSend (ps : pullBlockState)

/-! ## The environment -/

/-- The collaborators of the puller.  The first group are pure functions and
constants of packages whose code is not part of the file under study; the
second group gives, for each call, its result and the next environment state. -/
structure World (σ : Type) where
  /-- The function `protocol.IsDeleted(flags)`. -/
  IsDeleted : Nat → Bool
  /-- The function `protocol.IsDirectory(flags)`, also behind `FileInfo.IsDirectory()`. -/
  IsDirectory : Nat → Bool
  /-- The constant `protocol.BlockSize`. -/
  BlockSize : Nat
  /-- The method `BlockInfo.String()`. -/
  blockString : BlockInfo → String
  /-- The method `defTempNamer.TempName(name)`. -/
  TempName : String → String
  /-- The method `defTempNamer.IsTemporary(path)`. -/
  IsTemporary : String → Bool
  /-- The function `scanner.BlockDiff(src, tgt)`, returning `(have, need)`. -/
  BlockDiff : List BlockInfo → List BlockInfo → List BlockInfo × List BlockInfo
  /-- Result of a call that returns only an `error` (or nothing). -/
  sys : Call → σ → Option GoError × σ
  /-- Result of `os.Stat(path)`: an error, or whether the entry is a directory. -/
  stat : String → σ → Except GoError Bool × σ
  /-- Result of `scanner.HashFile(path, blockSize)`. -/
  hashFile : String → Nat → σ → Except GoError (List BlockInfo) × σ
  /-- Result of `model.CurrentFolderFile(folder, name)`. -/
  currentFolderFile : String → String → σ → FileInfo × σ
  /-- The items `files.WithNeed` delivers from its database snapshot, in order. -/
  withNeed : String → σ → List FileInfo × σ
  /-- Result of `model.RemoteLocalVersion(folder)`, an unsigned 64-bit stamp. -/
  remoteLocalVersion : String → σ → Nat × σ
  /-- Result of `model.availability(folder, name)`. -/
  availability : String → String → σ → List DeviceID × σ
  /-- The in-flight counters of the global `activity` map in a state. -/
  activity : σ → DeviceID → Nat
  /-- Result of `model.requestGlobal(...)`: an error or the block bytes. -/
  requestGlobal : DeviceID → String → String → Int → Nat → List Nat → σ →
    Except GoError (List Nat) × σ
  /-- Result of `state.finalClose()`. -/
  finalClose : sharedPullerState → σ → (Bool × Option GoError) × σ

variable {σ : Type}

/-- The function `filepath.Join(dir, name)` for a clean `dir` and a clean relative `name`. -/
def filepathJoin (dir name : String) : String := dir ++ "/" ++ name

/-- Modelled from the spec: `scanner.PopulateOffsets`, whose code is not in the
file under study; "fills offsets by prefix sum" of the block sizes, starting
at `offset`. -/
def PopulateOffsetsFrom : Int → List BlockInfo → List BlockInfo
  | _, [] => []
  | offset, b :: rest =>
    { b with Offset := offset } :: PopulateOffsetsFrom (offset + (b.Size : Int)) rest

/-- Modelled from the spec: `scanner.PopulateOffsets(blocks)`, the prefix sum from `0`. -/
def PopulateOffsets (blocks : List BlockInfo) : List BlockInfo :=
  PopulateOffsetsFrom 0 blocks

/-! ## The orchestrator: one puller iteration -/

/-- The routine `handleDir` (lines 350-402): create or update a directory. -/
def handleDir (w : World σ) (p : Puller) (file : FileInfo) (s : σ) : σ × List Call :=
  let realName := filepathJoin p.dir file.Name
  let mode := if p.ignorePerms then 0o755 else file.Flags &&& 0o777
  match w.stat realName s with
  | (Except.error err, s1) =>
    if err.IsNotExist then
      match w.sys (.inWritableDir (.mkdir realName mode)) s1 with
      | (none, s2) =>
        ((w.sys (.updateLocal p.folder file) s2).2,
          [.stat realName, .inWritableDir (.mkdir realName mode), .updateLocal p.folder file])
      | (some _, s2) => (s2, [.stat realName, .inWritableDir (.mkdir realName mode)])
    else (s1, [.stat realName])
  | (Except.ok isDir, s1) =>
    if !isDir then (s1, [.stat realName])
    else if p.ignorePerms then
      ((w.sys (.updateLocal p.folder file) s1).2, [.stat realName, .updateLocal p.folder file])
    else
      match w.sys (.chmod realName mode) s1 with
      | (none, s2) =>
        ((w.sys (.updateLocal p.folder file) s2).2,
          [.stat realName, .chmod realName mode, .updateLocal p.folder file])
      | (some _, s2) => (s2, [.stat realName, .chmod realName mode])

/-- The routine `deleteDir` (lines 405-413). -/
def deleteDir (w : World σ) (p : Puller) (file : FileInfo) (s : σ) : σ × List Call :=
  let realName := filepathJoin p.dir file.Name
  match w.sys (.inWritableDir (.remove realName)) s with
  | (none, s1) =>
    ((w.sys (.updateLocal p.folder file) s1).2,
      [.inWritableDir (.remove realName), .updateLocal p.folder file])
  | (some err, s1) =>
    if err.IsNotExist then
      ((w.sys (.updateLocal p.folder file) s1).2,
        [.inWritableDir (.remove realName), .updateLocal p.folder file])
    else (s1, [.inWritableDir (.remove realName)])

/-- The routine `deleteFile` (lines 416-431): archive when a versioner is
configured, unlink otherwise. -/
def deleteFile (w : World σ) (p : Puller) (file : FileInfo) (s : σ) : σ × List Call :=
  let realName := filepathJoin p.dir file.Name
  let op := if p.versioner then Call.inWritableDir (.archive realName)
    else Call.inWritableDir (.remove realName)
  match w.sys op s with
  | (some err, s1) =>
    if !err.IsNotExist then (s1, [op])
    else ((w.sys (.updateLocal p.folder file) s1).2, [op, .updateLocal p.folder file])
  | (none, s1) => ((w.sys (.updateLocal p.folder file) s1).2, [op, .updateLocal p.folder file])

/-- The routine `shortcutFile` (lines 522-548): set mode and modification time
when only metadata changed. -/
def shortcutFile (w : World σ) (p : Puller) (file : FileInfo) (s : σ) : σ × List Call :=
  let realName := filepathJoin p.dir file.Name
  -- lines 532-547, reached with the calls `t1` already made
  let setTimes (s1 : σ) (t1 : List Call) : σ × List Call :=
    match w.sys (.chtimes realName file.Modified) s1 with
    | (some _, s2) =>
      if p.lenientMtimes then
        ((w.sys (.updateLocal p.folder file) s2).2,
          t1 ++ [.chtimes realName file.Modified, .updateLocal p.folder file])
      else (s2, t1 ++ [.chtimes realName file.Modified])
    | (none, s2) =>
      ((w.sys (.updateLocal p.folder file) s2).2,
        t1 ++ [.chtimes realName file.Modified, .updateLocal p.folder file])
  if !p.ignorePerms then
    match w.sys (.chmod realName (file.Flags &&& 0o777)) s with
    | (some _, s1) => (s1, [.chmod realName (file.Flags &&& 0o777)])
    | (none, s1) => setTimes s1 [.chmod realName (file.Flags &&& 0o777)]
  else setTimes s []

/-- The comparison loop of `handleFile` (lines 439-443): `true` when no index
`i` of `file.Blocks` has `!bytes.Equal(curFile.Blocks[i].Hash, file.Blocks[i].Hash)`. -/
def hashesMatch (curBlocks fileBlocks : List BlockInfo) : Bool :=
  (List.range fileBlocks.length).all fun i =>
    decide ((curBlocks[i]?).map BlockInfo.Hash = (fileBlocks[i]?).map BlockInfo.Hash)

/-- The test that sends `handleFile` to the shortcut (lines 438-452): equal
lengths and no differing hash. -/
def takesShortcut (curBlocks fileBlocks : List BlockInfo) : Bool :=
  decide (curBlocks.length = fileBlocks.length) && hashesMatch curBlocks fileBlocks

/-- The blocks `handleFile` still has to obtain when the temp file hashed to
`tempBlocks` (lines 470-484): the target blocks whose `String()` is not a key
of `existingBlocks`. -/
def pendingBlocks (w : World σ) (tempBlocks fileBlocks : List BlockInfo) : List BlockInfo :=
  let tempCopyBlocks := (w.BlockDiff tempBlocks fileBlocks).1
  let existingBlocks := tempCopyBlocks.map w.blockString
  fileBlocks.filter fun block => !(existingBlocks.contains (w.blockString block))

/-- The `sharedPullerState` and `copyBlocksState` that `handleFile` builds
(lines 499-516) from the pending `blocks` and the count `reused`. -/
def newCopyBlocksState (p : Puller) (file : FileInfo) (tempName realName : String)
    (blocks : List BlockInfo) (reused : Int) : copyBlocksState :=
  { sharedPullerState :=
      { file := file, folder := p.folder, tempName := tempName, realName := realName,
        copyTotal := blocks.length, copyNeeded := blocks.length, reused := reused },
    blocks := blocks }

/-- The routine `handleFile` (lines 435-518): take the metadata shortcut, or
build the shared state and send one `copyBlocksState`. -/
def handleFile (w : World σ) (p : Puller) (file : FileInfo) (s : σ) : σ × List Call :=
  match w.currentFolderFile p.folder file.Name s with
  | (curFile, s1) =>
    if takesShortcut curFile.Blocks file.Blocks then
      let r := shortcutFile w p file s1
      (r.1, .currentFolderFile p.folder file.Name :: .shortcutFile file :: r.2)
    else
      -- FilesAreDifferent: the offsets are written into the shared block slice
      let target : FileInfo := { file with Blocks := PopulateOffsets file.Blocks }
      let tempName := filepathJoin p.dir (w.TempName file.Name)
      let realName := filepathJoin p.dir file.Name
      match w.hashFile tempName w.BlockSize s1 with
      | (Except.ok tempBlocks, s2) =>
        let blocks := pendingBlocks w tempBlocks target.Blocks
        let reused : Int := (target.Blocks.length : Int) - (blocks.length : Int)
        let cs := newCopyBlocksState p target tempName realName blocks reused
        if reused = 0 then
          ((w.sys (.copyChanSend cs) (w.sys (.remove tempName) s2).2).2,
            [.currentFolderFile p.folder file.Name, .hashFile tempName w.BlockSize,
              .remove tempName, .copyChanSend cs])
        else
          ((w.sys (.copyChanSend cs) s2).2,
            [.currentFolderFile p.folder file.Name, .hashFile tempName w.BlockSize,
              .copyChanSend cs])
      | (Except.error _, s2) =>
        let cs := newCopyBlocksState p target tempName realName target.Blocks 0
        ((w.sys (.copyChanSend cs) s2).2,
          [.currentFolderFile p.folder file.Name, .hashFile tempName w.BlockSize,
            .copyChanSend cs])

/-- The captured variables of the `WithNeed` callback, the environment, and
the calls made so far. -/
structure NeedResult (σ : Type) where
  changed : Nat
  deletions : List FileInfo
  world : σ
  trace : List Call

/-- The callback passed to `files.WithNeed` (lines 287-322), run over the
delivered items: `changed` and `deletions` are the captured variables. -/
def needLoop (w : World σ) (p : Puller) :
    List FileInfo → Nat → List FileInfo → σ → NeedResult σ
  | [], changed, deletions, s =>
    { changed := changed, deletions := deletions, world := s, trace := [] }
  | file :: rest, changed, deletions, s =>
    let s0 := (w.sys (.itemStarted p.folder file.Name) s).2
    if w.IsDeleted file.Flags then
      let r := needLoop w p rest (changed + 1) (deletions ++ [file]) s0
      { r with trace := .itemStarted p.folder file.Name :: r.trace }
    else if w.IsDirectory file.Flags then
      let h := handleDir w p file s0
      let r := needLoop w p rest (changed + 1) deletions h.1
      { r with trace := .itemStarted p.folder file.Name :: .handleDir file :: (h.2 ++ r.trace) }
    else
      let h := handleFile w p file s0
      let r := needLoop w p rest (changed + 1) deletions h.1
      { r with trace := .itemStarted p.folder file.Name :: .handleFile file :: (h.2 ++ r.trace) }

/-- The deletion loop (lines 337-344): for each index `i` of `deletions`, the
entry `deletions[len(deletions)-i-1]` is deleted. -/
def deleteLoop (w : World σ) (p : Puller) (deletions : List FileInfo) :
    List Nat → σ → σ × List Call
  | [], s => (s, [])
  | i :: rest, s =>
    match deletions[deletions.length - i - 1]? with
    | none => (s, [])
    | some deletion =>
      if w.IsDirectory deletion.Flags then
        let d := deleteDir w p deletion s
        let r := deleteLoop w p deletions rest d.1
        (r.1, .deleteDir deletion :: (d.2 ++ r.2))
      else
        let d := deleteFile w p deletion s
        let r := deleteLoop w p deletions rest d.1
        (r.1, .deleteFile deletion :: (d.2 ++ r.2))

/-- What one `pullerIteration` leaves behind: the returned count, the
environment, and the calls of the orchestrating goroutine in program order. -/
structure IterationResult (σ : Type) where
  changed : Nat
  world : σ
  trace : List Call

/-- The statements between the end of the `WithNeed` iteration and the
deletion loop (lines 326-335). -/
def drainStages : List Call :=
  [.closeCopyChan, .copyWgWait, .closePullChan, .pullWgWait, .closeFinisherChan, .doneWgWait]

/-- The routine `pullerIteration` (lines 237-347), as seen from the goroutine that runs it. -/
def pullerIteration (w : World σ) (p : Puller) (ncopiers npullers nfinishers : Nat)
    (s : σ) : IterationResult σ :=
  let items := (w.withNeed p.folder s).1
  let n := needLoop w p items 0 [] (w.withNeed p.folder s).2
  let d := deleteLoop w p n.deletions (List.range n.deletions.length) n.world
  { changed := n.changed
    world := d.1
    trace := [.startRoutines ncopiers npullers nfinishers, .withNeed p.folder]
      ++ n.trace ++ drainStages ++ d.2 }

/-! ## The copier stage -/

/-- A block claim the `BlockFinder` hands to its visitor: folder, relative
file name and block index. -/
abbrev BlockClaim := String × String × Nat

/-- The collaborators of the copier, in addition to those of `World`. -/
structure CopierWorld (σ : Type) extends World σ where
  /-- The path `p.model.folderCfgs[folder].Path` of a folder. -/
  folderPath : String → String
  /-- The block claims the `BlockFinder` knows for a hash, in the order it
  visits them. -/
  finder : List Nat → σ → List BlockClaim × σ
  /-- Result of `fdCache.Get(path)`: whether the cache holds a descriptor. -/
  fdCacheGet : String → σ → Bool × σ
  /-- Result of `fd.ReadAt(buf, offset)` on the file at `path`, with `len(buf)`
  bytes asked for: an error or the bytes read. -/
  readAt : String → Nat → Int → σ → Except GoError (List Nat) × σ

/-- Modelled from the spec: `BlockFinder.Iterate`, whose code is not in the
file under study; "invoking `visit(folder, relativeName, blockIndex)` for each
locally known block claim with that hash; visit returns true to stop".  The
result tells whether a visit returned true; `τ` is what the visitor captures. -/
def Iterate {τ : Type} (visit : BlockClaim → τ → Bool × τ) : List BlockClaim → τ → Bool × τ
  | [], a => (false, a)
  | claim :: rest, a =>
    let r := visit claim a
    if r.1 then (true, r.2) else Iterate visit rest r.2

/-- What the visitor of `copierRoutine` captures and leaves behind: the
environment and the calls made so far. -/
structure CopyAcc (σ : Type) where
  world : σ
  trace : List Call

/-- The visitor `copierRoutine` passes to `finder.Iterate` (lines 580-609) for
one block of one state. -/
def copyVisit (w : CopierWorld σ) (state : copyBlocksState) (block : BlockInfo)
    (claim : BlockClaim) (a : CopyAcc σ) : Bool × CopyAcc σ :=
  let sp := state.sharedPullerState
  let path := filepathJoin (w.folderPath claim.1) claim.2.1
  let offset : Int := (w.BlockSize : Int) * (claim.2.2 : Int)
  -- lines 596-608, reached with a descriptor and the calls `t` made for it
  let copy (s2 : σ) (t : List Call) : Bool × CopyAcc σ :=
    match w.readAt path block.Size offset s2 with
    | (Except.error _, s3) =>
      (false, { world := s3, trace := a.trace ++ t ++ [.readAt path block.Size offset] })
    | (Except.ok buf, s3) =>
      let t3 : List Call := a.trace ++ t
        ++ [.readAt path block.Size offset, .writeAt sp.tempName buf block.Offset]
      match w.sys (.writeAt sp.tempName buf block.Offset) s3 with
      | (some err, s4) =>
        if claim.2.1 = sp.file.Name then
          (true, { world := (w.sys (.copiedFromOrigin sp)
                      (w.sys (.earlyClose sp "dst write" err) s4).2).2,
                   trace := t3 ++ [.earlyClose sp "dst write" err, .copiedFromOrigin sp] })
        else
          (true, { world := (w.sys (.earlyClose sp "dst write" err) s4).2,
                   trace := t3 ++ [.earlyClose sp "dst write" err] })
      | (none, s4) =>
        if claim.2.1 = sp.file.Name then
          (true, { world := (w.sys (.copiedFromOrigin sp) s4).2,
                   trace := t3 ++ [.copiedFromOrigin sp] })
        else
          (true, { world := s4, trace := t3 })
  match w.fdCacheGet path a.world with
  | (true, s1) => copy s1 [.fdCacheGet path]
  | (false, s1) =>
    match w.sys (.osOpen path) s1 with
    | (some _, s2) =>
      (false, { world := s2, trace := a.trace ++ [.fdCacheGet path, .osOpen path] })
    | (none, s2) =>
      copy (w.sys (.fdCacheSet path) s2).2 [.fdCacheGet path, .osOpen path, .fdCacheSet path]

/-- What the loop body of `copierRoutine` leaves behind for one block: whether
the goroutine ended in a run-time panic, whether the loop was left by `break`,
the result of `Iterate`, the environment, and the calls made. -/
structure BlockResult (σ : Type) where
  crashed : Bool
  broke : Bool
  success : Bool
  world : σ
  trace : List Call

/-- The body of the block loop of `copierRoutine` (lines 577-625) for one
pending block.  The buffer has capacity `protocol.BlockSize` (line 553), so
the slice expression `buf[:int(block.Size)]` of line 578 is out of range, a
run-time panic, for a larger block. -/
def copyBlock (w : CopierWorld σ) (state : copyBlocksState) (block : BlockInfo) (s : σ) :
    BlockResult σ :=
  let sp := state.sharedPullerState
  if w.BlockSize < block.Size then
    { crashed := true, broke := false, success := false, world := s, trace := [] }
  else
    let claims := w.finder block.Hash s
    let it := Iterate (copyVisit w state block) claims.1
      { world := claims.2, trace := [.finderIterate block.Hash] }
    match w.sys (.failed sp) it.2.world with
    | (some _, s1) =>
      { crashed := false, broke := true, success := it.1, world := s1,
        trace := it.2.trace ++ [.failed sp] }
    | (none, s1) =>
      if !it.1 then
        { crashed := false, broke := false, success := it.1,
          world := (w.sys (.pullChanSend { sharedPullerState := sp, block := block })
            (w.sys (.pullStarted sp) s1).2).2,
          trace := it.2.trace ++ [.failed sp, .pullStarted sp,
            .pullChanSend { sharedPullerState := sp, block := block }] }
      else
        { crashed := false, broke := false, success := it.1,
          world := (w.sys (.copyDone sp) s1).2,
          trace := it.2.trace ++ [.failed sp, .copyDone sp] }

/-- What the block loop of `copierRoutine` leaves behind: whether it ended in a
run-time panic, whether it was left by `break`, the blocks that passed the
`failed()` check with the result of their `Iterate`, the environment, and the
calls made. -/
structure LoopResult (σ : Type) where
  crashed : Bool
  broke : Bool
  processed : List (BlockInfo × Bool)
  world : σ
  trace : List Call

/-- The block loop of `copierRoutine` (lines 577-625) over the pending list. -/
def copyLoop (w : CopierWorld σ) (state : copyBlocksState) :
    List BlockInfo → σ → LoopResult σ
  | [], s => { crashed := false, broke := false, processed := [], world := s, trace := [] }
  | block :: rest, s =>
    let b := copyBlock w state block s
    if b.crashed then
      { crashed := true, broke := false, processed := [], world := b.world, trace := b.trace }
    else if b.broke then
      { crashed := false, broke := true, processed := [], world := b.world, trace := b.trace }
    else
      let r := copyLoop w state rest b.world
      { crashed := r.crashed, broke := r.broke, processed := (block, b.success) :: r.processed,
        world := r.world, trace := b.trace ++ r.trace }

/-- What a copier leaves behind: whether the goroutine ended in a run-time
panic, the environment, and the calls made. -/
structure CopierResult (σ : Type) where
  crashed : Bool
  world : σ
  trace : List Call

/-- The body of the loop of `copierRoutine` (lines 556-629) for one received
`copyBlocksState`. -/
def copierBody (w : CopierWorld σ) (state : copyBlocksState) (s : σ) : CopierResult σ :=
  let sp := state.sharedPullerState
  match w.sys (.tempFile sp) s with
  | (some _, s1) => { crashed := false, world := s1, trace := [.tempFile sp] }
  | (none, s1) =>
    let r := copyLoop w state state.blocks (w.sys .newFdCache s1).2
    if r.crashed then
      { crashed := true, world := r.world, trace := [.tempFile sp, .newFdCache] ++ r.trace }
    else
      { crashed := false
        world := (w.sys (.finisherChanSend sp) (w.sys .closeEvictionChan
          (w.sys .fdCacheEvict r.world).2).2).2
        trace := [.tempFile sp, .newFdCache] ++ r.trace
          ++ [.fdCacheEvict, .closeEvictionChan, .finisherChanSend sp] }

/-- The routine `copierRoutine` (lines 552-630) of one worker over the states
it receives; a run-time panic ends it. -/
def copierRoutine (w : CopierWorld σ) : List copyBlocksState → σ → CopierResult σ
  | [], s => { crashed := false, world := s, trace := [] }
  | state :: rest, s =>
    let b := copierBody w state s
    if b.crashed then b
    else
      let r := copierRoutine w rest b.world
      { crashed := r.crashed, world := r.world, trace := b.trace ++ r.trace }

/-! ## The puller stage -/

/-- Modelled from the spec: `deviceActivity.leastBusy`, whose code is not in
the file under study.  It "returns the candidate with the smallest counter",
"or the zero id if the set is empty"; `act` is the in-flight counter of each
device, and among equal counters the earliest candidate is kept. -/
def leastBusy (act : DeviceID → Nat) : List DeviceID → DeviceID
  | [] => 0
  | d :: rest => rest.foldl (fun best c => if act c < act best then c else best) d

/-- The body of the loop of `pullerRoutine` (lines 634-676) for one received
`pullBlockState`. -/
def pullerBody (w : World σ) (p : Puller) (state : pullBlockState) (s : σ) : σ × List Call :=
  let sp := state.sharedPullerState
  match w.sys (.failed sp) s with
  | (some _, s1) => (s1, [.failed sp])
  | (none, s1) =>
    let potentialDevices := w.availability p.folder sp.file.Name s1
    let selected := leastBusy (w.activity potentialDevices.2) potentialDevices.1
    let t1 : List Call :=
      [.failed sp, .availability p.folder sp.file.Name, .leastBusy potentialDevices.1]
    if selected = 0 then
      ((w.sys (.earlyClose sp "pull" errNoDevice) potentialDevices.2).2,
        t1 ++ [.earlyClose sp "pull" errNoDevice])
    else
      match w.sys (.tempFile sp) potentialDevices.2 with
      | (some _, s2) => (s2, t1 ++ [.tempFile sp])
      | (none, s2) =>
        let s3 := (w.sys (.using selected) s2).2
        let request := Call.requestGlobal selected p.folder sp.file.Name state.block.Offset
          state.block.Size state.block.Hash
        let r := w.requestGlobal selected p.folder sp.file.Name state.block.Offset
          state.block.Size state.block.Hash s3
        let s4 := (w.sys (.done selected) r.2).2
        let t2 : List Call := t1 ++ [.tempFile sp, .using selected, request, .done selected]
        match r.1 with
        | Except.error err =>
          ((w.sys (.earlyClose sp "pull" err) s4).2, t2 ++ [.earlyClose sp "pull" err])
        | Except.ok buf =>
          match w.sys (.writeAt sp.tempName buf state.block.Offset) s4 with
          | (some err, s5) =>
            ((w.sys (.earlyClose sp "save" err) s5).2,
              t2 ++ [.writeAt sp.tempName buf state.block.Offset, .earlyClose sp "save" err])
          | (none, s5) =>
            ((w.sys (.finisherChanSend sp) (w.sys (.pullDone sp) s5).2).2,
              t2 ++ [.writeAt sp.tempName buf state.block.Offset, .pullDone sp,
                .finisherChanSend sp])

/-- The routine `pullerRoutine` (lines 632-677) of one worker over the states it receives. -/
def pullerRoutine (w : World σ) (p : Puller) :
    List pullBlockState → σ → σ × List Call
  | [], s => (s, [])
  | state :: rest, s =>
    let b := pullerBody w p state s
    let r := pullerRoutine w p rest b.1
    (r.1, b.2 ++ r.2)

/-! ## The finisher stage -/

/-- The body of the loop of `finisherRoutine` (lines 681-748) for one received state. -/
def finisherBody (w : World σ) (p : Puller) (state : sharedPullerState) (s : σ) :
    σ × List Call :=
  -- lines 739-747: replace the original file, then record it in the index
  let replace (s5 : σ) (t5 : List Call) : σ × List Call :=
    match w.sys (.rename state.tempName state.realName) s5 with
    | (some _, s6) => (s6, t5 ++ [.rename state.tempName state.realName])
    | (none, s6) =>
      ((w.sys (.updateLocal p.folder state.file) s6).2,
        t5 ++ [.rename state.tempName state.realName, .updateLocal p.folder state.file])
  -- lines 731-737: let the versioner archive the old file
  let version (s4 : σ) (t4 : List Call) : σ × List Call :=
    if p.versioner then
      match w.sys (.archive state.realName) s4 with
      | (some _, s5) => (s5, t4 ++ [.archive state.realName])
      | (none, s5) => replace s5 (t4 ++ [.archive state.realName])
    else replace s4 t4
  -- lines 713-726: set the timestamp
  let setTimes (s3 : σ) (t3 : List Call) : σ × List Call :=
    match w.sys (.chtimes state.tempName state.file.Modified) s3 with
    | (some _, s4) =>
      if p.lenientMtimes then version s4 (t3 ++ [.chtimes state.tempName state.file.Modified])
      else (s4, t3 ++ [.chtimes state.tempName state.file.Modified])
    | (none, s4) => version s4 (t3 ++ [.chtimes state.tempName state.file.Modified])
  match w.finalClose state s with
  | ((false, _), s1) => (s1, [.finalClose state])
  | ((true, some _), s1) => (s1, [.finalClose state])
  | ((true, none), s1) =>
    match w.sys (.osOpen state.tempName) s1 with
    | (some _, s2) => (s2, [.finalClose state, .osOpen state.tempName])
    | (none, s2) =>
      let t2 : List Call := [.finalClose state, .osOpen state.tempName,
        .verify state.tempName w.BlockSize state.file.Blocks]
      match w.sys (.verify state.tempName w.BlockSize state.file.Blocks) s2 with
      | (some _, s3) => (s3, t2)
      | (none, s3) =>
        if !p.ignorePerms then
          match w.sys (.chmod state.tempName (state.file.Flags &&& 0o777)) s3 with
          | (some _, s4) => (s4, t2 ++ [.chmod state.tempName (state.file.Flags &&& 0o777)])
          | (none, s4) => setTimes s4 (t2 ++ [.chmod state.tempName (state.file.Flags &&& 0o777)])
        else setTimes s3 t2

/-- The routine `finisherRoutine` (lines 679-750) of one worker over the states it receives. -/
def finisherRoutine (w : World σ) (p : Puller) :
    List sharedPullerState → σ → σ × List Call
  | [], s => (s, [])
  | state :: rest, s =>
    let b := finisherBody w p state s
    let r := finisherRoutine w p rest b.1
    (r.1, b.2 ++ r.2)

/-! ## The control loop: one pull tick of `Serve` -/

/-- One second as a `time.Duration` (nanoseconds). -/
def Second : Nat := 1000000000

/-- The constant `copiersPerFolder`. -/
def copiersPerFolder : Nat := 1

/-- The constant `pullersPerFolder`. -/
def pullersPerFolder : Nat := 16

/-- The constant `finishersPerFolder`. -/
def finishersPerFolder : Nat := 2

/-- The constant `pauseIntv = 60 * time.Second`. -/
def pauseIntv : Nat := 60 * Second

/-- The constant `nextPullIntv = 10 * time.Second`. -/
def nextPullIntv : Nat := 10 * Second

/-- The constant `checkPullIntv = 1 * time.Second`. -/
def checkPullIntv : Nat := 1 * Second

/-- The local variables of `Serve` that a pull tick reads. -/
structure ServeVars where
  prevVer : Nat
  initialScanCompleted : Bool
  deriving DecidableEq, Repr

/-- What a pull tick leaves behind: the variable `prevVer`, the environment,
the calls made, the value `changed` of each pass in order, and the values
`RemoteLocalVersion` returned in order. -/
structure TickResult (σ : Type) where
  prevVer : Nat
  world : σ
  trace : List Call
  passes : List Nat
  versions : List Nat

/-- The retry loop of the pull tick (lines 144-188), entered with the local
variables `curVer`, `prevVer` and `tries`. -/
def retryLoop (w : World σ) (p : Puller) (curVer prevVer : Nat) (tries : Nat) (s : σ) :
    TickResult σ :=
  let tries1 := tries + 1
  let it := pullerIteration w p copiersPerFolder pullersPerFolder finishersPerFolder s
  if it.changed = 0 then
    let lv := w.remoteLocalVersion p.folder it.world
    let curVer1 := if lv.1 < curVer then lv.1 else curVer
    { prevVer := curVer1
      world := (w.sys (.pullTimerReset nextPullIntv) lv.2).2
      trace := .pullerIteration :: it.trace
        ++ [.remoteLocalVersion p.folder, .pullTimerReset nextPullIntv]
      passes := [it.changed]
      versions := [lv.1] }
  else if tries1 > 10 then
    { prevVer := prevVer
      world := (w.sys (.pullTimerReset pauseIntv) (w.sys (.warnNoProgress p.folder pauseIntv)
        it.world).2).2
      trace := .pullerIteration :: it.trace
        ++ [.warnNoProgress p.folder pauseIntv, .pullTimerReset pauseIntv]
      passes := [it.changed]
      versions := [] }
  else
    let r := retryLoop w p curVer prevVer tries1 it.world
    { r with
      trace := .pullerIteration :: it.trace ++ r.trace
      passes := it.changed :: r.passes }
termination_by 10 - tries
decreasing_by omega

/-- The `case <-pullTimer.C` branch of `Serve` (lines 119-189). -/
def pullTick (w : World σ) (p : Puller) (v : ServeVars) (s : σ) : TickResult σ :=
  if !v.initialScanCompleted then
    { prevVer := v.prevVer
      world := (w.sys (.pullTimerReset nextPullIntv) s).2
      trace := [.pullTimerReset nextPullIntv]
      passes := []
      versions := [] }
  else
    let curVer := w.remoteLocalVersion p.folder s
    if curVer.1 = v.prevVer then
      { prevVer := v.prevVer
        world := (w.sys (.pullTimerReset checkPullIntv) curVer.2).2
        trace := [.remoteLocalVersion p.folder, .pullTimerReset checkPullIntv]
        passes := []
        versions := [curVer.1] }
    else
      let r := retryLoop w p curVer.1 v.prevVer 0
        (w.sys (.setState p.folder .FolderSyncing) curVer.2).2
      { prevVer := r.prevVer
        world := (w.sys (.setState p.folder .FolderIdle) r.world).2
        trace := [.remoteLocalVersion p.folder, .setState p.folder .FolderSyncing]
          ++ r.trace ++ [.setState p.folder .FolderIdle]
        passes := r.passes
        versions := curVer.1 :: r.versions }

/-! ## Cleaning out old temporaries -/

/-- Reduction of an integer to the range of a signed 64-bit integer, as Go
arithmetic on `int64` does. -/
def wrapInt64 (x : Int) : Int := (x + 2 ^ 63) % 2 ^ 64 - 2 ^ 63

/-- The constant `time.Hour` in nanoseconds. -/
def Hour : Int := 3600000000000

/-- The duration `keep := time.Duration(KeepTemporariesH) * time.Hour` (line 754),
a signed 64-bit product. -/
def keepDuration (KeepTemporariesH : Int) : Int := wrapInt64 (KeepTemporariesH * Hour)

mutual
/-- A file system entry as `filepath.Walk` meets it (after `os.Lstat`): either
a non-directory, with whether its mode is regular and its modification time in
nanoseconds, or a directory with its modification time, whether reading its
names succeeds, and its entries in the order `Walk` visits them, which is the
lexical order of their names. -/
inductive FsNode where
  | file (regular : Bool) (modTime : Int)
  | dir (modTime : Int) (readable : Bool) (entries : FsEntries)
/-- The entries of a directory: `entry` for a name whose `os.Lstat` succeeds,
`broken` for a name whose `os.Lstat` fails. -/
inductive FsEntries where
  | nil
  | entry (name : String) (node : FsNode) (rest : FsEntries)
  | broken (name : String) (rest : FsEntries)
end

/-- The part of `os.FileInfo` the callback of `clean` looks at. -/
structure FileStat where
  IsRegular : Bool
  ModTime : Int
  deriving DecidableEq, Repr

/-- The `os.FileInfo` of a node. -/
def FsNode.info : FsNode → FileStat
  | .file regular modTime => { IsRegular := regular, ModTime := modTime }
  | .dir modTime _ _ => { IsRegular := false, ModTime := modTime }

/-- The callback `clean` passes to `filepath.Walk` (lines 756-766), for the
duration `keep` and the time `now`: the calls it makes and the error it returns. -/
def cleanFn (w : World σ) (keep now : Int) (path : String) (info : FileStat)
    (err : Option GoError) : List Call × Option GoError :=
  match err with
  | some e => ([], some e)
  | none =>
    if info.IsRegular && w.IsTemporary path && decide (info.ModTime + keep < now) then
      ([.remove path], none)
    else ([], none)

mutual
/-- The function `walk` of `path/filepath`: call `walkFn` on the entry, and for
a directory read its names and walk them; the first error `walkFn` returns
ends the walk (`walkFn` here never returns `SkipDir`). -/
def walk (walkFn : String → FileStat → Option GoError → List Call × Option GoError)
    (path : String) : FsNode → List Call × Option GoError
  | .file regular modTime => walkFn path (FsNode.file regular modTime).info none
  | .dir modTime readable entries =>
    let r := walkFn path (FsNode.dir modTime readable entries).info none
    match r.2 with
    | some e => (r.1, some e)
    | none =>
      if readable then
        let rest := walkNames walkFn path entries
        (r.1 ++ rest.1, rest.2)
      else
        -- readDirNames fails: `return walkFn(path, info, err)`
        let r2 := walkFn path (FsNode.dir modTime readable entries).info (some (.other 0))
        (r.1 ++ r2.1, r2.2)
/-- The loop of `walk` over the names of a directory. -/
def walkNames (walkFn : String → FileStat → Option GoError → List Call × Option GoError)
    (path : String) : FsEntries → List Call × Option GoError
  | .nil => ([], none)
  | .broken name rest =>
    -- `lstat` fails: `walkFn(filename, fileInfo, err)`, whose error ends the walk
    let r := walkFn (filepathJoin path name) { IsRegular := false, ModTime := 0 }
      (some (.other 0))
    match r.2 with
    | some e => (r.1, some e)
    | none =>
      let r2 := walkNames walkFn path rest
      (r.1 ++ r2.1, r2.2)
  | .entry name node rest =>
    let r := walk walkFn (filepathJoin path name) node
    match r.2 with
    | some e => (r.1, some e)
    | none =>
      let r2 := walkNames walkFn path rest
      (r.1 ++ r2.1, r2.2)
end

/-- The function `filepath.Walk(root, walkFn)`; `root` is `none` when
`os.Lstat(root)` fails. -/
def Walk (walkFn : String → FileStat → Option GoError → List Call × Option GoError)
    (root : String) : Option FsNode → List Call × Option GoError
  | none => walkFn root { IsRegular := false, ModTime := 0 } (some (.other 0))
  | some node => walk walkFn root node

/-- The routine `clean` (lines 753-767): `KeepTemporariesH` is the configured
number of hours, `now` the value of `time.Now()`, `root` the tree at `p.dir`. -/
def clean (w : World σ) (p : Puller) (KeepTemporariesH : Int) (now : Int)
    (root : Option FsNode) : List Call :=
  let keep := keepDuration KeepTemporariesH
  (Walk (cleanFn w keep now) p.dir root).1

/-! ## Observations on traces -/

/-- The steps of the orchestrating goroutine that the ordering property is
about: entering a handler, the stage shutdown, entering a delete routine. -/
def isStep : Call → Bool
  | .handleDir _ => true
  | .handleFile _ => true
  | .deleteDir _ => true
  | .deleteFile _ => true
  | .closeCopyChan => true
  | .copyWgWait => true
  | .closePullChan => true
  | .pullWgWait => true
  | .closeFinisherChan => true
  | .doneWgWait => true
  | _ => false

/-- The handler `pullerIteration` enters for a needed item without the deleted flag. -/
def handleStep (w : World σ) (file : FileInfo) : Call :=
  if w.IsDirectory file.Flags then .handleDir file else .handleFile file

/-- The delete routine `pullerIteration` enters for a buffered deletion. -/
def deleteStep (w : World σ) (file : FileInfo) : Call :=
  if w.IsDirectory file.Flags then .deleteDir file else .deleteFile file

/-- The calls by which the finisher replaces the real file and records it. -/
def isReplace : Call → Bool
  | .rename _ _ => true
  | .updateLocal _ _ => true
  | _ => false

/-- The files for which a trace enters `shortcutFile`, in order. -/
def shortcutCalls : List Call → List FileInfo
  | [] => []
  | .shortcutFile f :: rest => f :: shortcutCalls rest
  | _ :: rest => shortcutCalls rest

/-- The states a trace sends on the copy channel, in order. -/
def copySends : List Call → List copyBlocksState
  | [] => []
  | .copyChanSend cs :: rest => cs :: copySends rest
  | _ :: rest => copySends rest

/-- The calls that hash, open, create, write, remove or rename a file's data. -/
def isTempCall : Call → Bool
  | .hashFile _ _ => true
  | .remove _ => true
  | .tempFile _ => true
  | .osOpen _ => true
  | .writeAt _ _ _ => true
  | .rename _ _ => true
  | _ => false

/-- The calls that decide what happens to a block in the puller stage. -/
def isPullOutcome : Call → Bool
  | .requestGlobal _ _ _ _ _ _ => true
  | .earlyClose _ _ _ => true
  | .pullDone _ => true
  | .finisherChanSend _ => true
  | _ => false

/-- The calls `Serve` makes itself in a pull tick. -/
def isServeStep : Call → Bool
  | .pullerIteration => true
  | .remoteLocalVersion _ => true
  | .setState _ _ => true
  | .warnNoProgress _ _ => true
  | .pullTimerReset _ => true
  | _ => false

mutual
/-- The entries of a tree with their paths, in walk order. -/
def FsNode.entries (path : String) : FsNode → List (String × FileStat)
  | .file regular modTime => [(path, (FsNode.file regular modTime).info)]
  | .dir modTime readable entries =>
    (path, (FsNode.dir modTime readable entries).info) :: entries.entries path
/-- The entries below a directory. -/
def FsEntries.entries (path : String) : FsEntries → List (String × FileStat)
  | .nil => []
  | .broken _ rest => rest.entries path
  | .entry name node rest => node.entries (filepathJoin path name) ++ rest.entries path
end

mutual
/-- Whether `filepath.Walk` meets no error in a tree: every directory can be
read and `os.Lstat` succeeds on every name. -/
def FsNode.walkable : FsNode → Bool
  | .file _ _ => true
  | .dir _ readable entries => readable && entries.walkable
/-- Whether `filepath.Walk` meets no error below a directory. -/
def FsEntries.walkable : FsEntries → Bool
  | .nil => true
  | .broken _ _ => false
  | .entry _ node rest => node.walkable && rest.walkable
end

/-- An entry that is a regular file, has a temporary name, and whose
modification time plus `keep` is strictly before `now`. -/
def isOldTemporary (w : World σ) (keep now : Int) (e : String × FileStat) : Bool :=
  e.2.IsRegular && w.IsTemporary e.1 && decide (e.2.ModTime + keep < now)

/-- One `os.Remove` for each old temporary among the entries, in order. -/
def removals (w : World σ) (keep now : Int) (es : List (String × FileStat)) : List Call :=
  (es.filter (isOldTemporary w keep now)).map (fun e => Call.remove e.1)

/-- The states a trace sends to the finisher channel, in order. -/
def finisherSends : List Call → List sharedPullerState
  | [] => []
  | .finisherChanSend sp :: rest => sp :: finisherSends rest
  | _ :: rest => finisherSends rest

/-- The states a trace sends to the puller channel, in order. -/
def pullSends : List Call → List pullBlockState
  | [] => []
  | .pullChanSend ps :: rest => ps :: pullSends rest
  | _ :: rest => pullSends rest

/-- The calls by which the copier settles a block: `copyDone`, or
`pullStarted` and the send to the puller. -/
def isCopyOutcome : Call → Bool
  | .copyDone _ => true
  | .pullStarted _ => true
  | .pullChanSend _ => true
  | _ => false

/-- The `copyDone` calls. -/
def isCopyDone : Call → Bool
  | .copyDone _ => true
  | _ => false

/-- The calls by which the copier writes a block or settles it: `WriteAt` on
the temp file, `earlyClose`, `copyDone`, `pullStarted` and the send to the
puller. -/
def isCopyWrite : Call → Bool
  | .writeAt _ _ _ => true
  | .earlyClose _ _ _ => true
  | .copyDone _ => true
  | .pullStarted _ => true
  | .pullChanSend _ => true
  | _ => false

/-- A claim for `block` fails in some state the copier tried it in: the file is
not in the descriptor cache and `os.Open` returns an error, or the `ReadAt` of
`block.Size` bytes at `BlockSize * index` returns an error. -/
def ClaimSkipped (w : CopierWorld σ) (block : BlockInfo) (claim : BlockClaim) : Prop :=
  (∃ s : σ, (w.fdCacheGet (filepathJoin (w.folderPath claim.1) claim.2.1) s).1 = false
    ∧ (w.sys (.osOpen (filepathJoin (w.folderPath claim.1) claim.2.1))
        (w.fdCacheGet (filepathJoin (w.folderPath claim.1) claim.2.1) s).2).1 ≠ none)
  ∨ (∃ (s s1 : σ) (e : GoError),
      w.readAt (filepathJoin (w.folderPath claim.1) claim.2.1) block.Size
        ((w.BlockSize : Int) * (claim.2.2 : Int)) s = (Except.error e, s1))

/-- A claim for `block` succeeds in the states the copier tried it in: the file
is in the descriptor cache or `os.Open` returns no error; the `ReadAt` of
`block.Size` bytes at `BlockSize * index` returns `buf`; and in the state that
read leaves behind, `WriteAt(buf, block.Offset)` on the temp file returns no
error. -/
def ClaimCopied (w : CopierWorld σ) (sp : sharedPullerState) (block : BlockInfo)
    (claim : BlockClaim) (buf : List Nat) : Prop :=
  (∃ s : σ, (w.fdCacheGet (filepathJoin (w.folderPath claim.1) claim.2.1) s).1 = true
    ∨ (w.sys (.osOpen (filepathJoin (w.folderPath claim.1) claim.2.1))
        (w.fdCacheGet (filepathJoin (w.folderPath claim.1) claim.2.1) s).2).1 = none)
  ∧ (∃ s s1 : σ,
      w.readAt (filepathJoin (w.folderPath claim.1) claim.2.1) block.Size
        ((w.BlockSize : Int) * (claim.2.2 : Int)) s = (Except.ok buf, s1)
      ∧ (w.sys (.writeAt sp.tempName buf block.Offset) s1).1 = none)

/-- The environment in which pass number `k` (counting from 0) of a retry loop
entered in `s` begins, as long as no earlier pass has ended the loop: each pass
starts where the one before it ended. -/
def passStart (w : World σ) (p : Puller) : Nat → σ → σ
  | 0, s => s
  | k + 1, s =>
    passStart w p k
      (pullerIteration w p copiersPerFolder pullersPerFolder finishersPerFolder s).world

/-- Lexical order of names, character by character, as `sort.Strings` orders
the names `filepath.Walk` reads from a directory. -/
def nameLt : List Char → List Char → Bool
  | [], [] => false
  | [], _ :: _ => true
  | _ :: _, [] => false
  | a :: as, b :: bs =>
    if a.toNat < b.toNat then true
    else if a.toNat = b.toNat then nameLt as bs
    else false

/-- The first name listed in a directory, if any. -/
def FsEntries.firstName : FsEntries → Option String
  | .nil => none
  | .entry name _ _ => some name
  | .broken name _ => some name

mutual
/-- Whether every directory of a tree lists its names in strictly increasing
lexical order, the order in which `filepath.Walk` visits them. -/
def FsNode.sorted : FsNode → Bool
  | .file _ _ => true
  | .dir _ _ entries => entries.sorted
/-- Whether the names of a directory listing, and of the trees below it, are
in strictly increasing lexical order. -/
def FsEntries.sorted : FsEntries → Bool
  | .nil => true
  | .broken name rest =>
    (match rest.firstName with
      | some next => nameLt name.toList next.toList
      | none => true) && rest.sorted
  | .entry name node rest =>
    (match rest.firstName with
      | some next => nameLt name.toList next.toList
      | none => true) && node.sorted && rest.sorted
end

/-- The calls by which the copier settles the blocks that passed the
`failed()` check, given with the result of their `Iterate`: `copyDone` for a
block with a successful claim, `pullStarted` and a `pullBlockState` otherwise. -/
def settled (sp : sharedPullerState) : List (BlockInfo × Bool) → List Call
  | [] => []
  | (_, true) :: rest => .copyDone sp :: settled sp rest
  | (block, false) :: rest =>
    .pullStarted sp :: .pullChanSend { sharedPullerState := sp, block := block }
      :: settled sp rest

/-! ## Sample environments -/

/-- The last path element of a path given as characters. -/
def baseName (path : List Char) : List Char :=
  path.foldl (fun acc c => if c = '/' then [] else acc ++ [c]) []

/-- The temporary name of a relative name: `.syncthing.` put before its last
path element. -/
def sampleTempName (name : String) : String :=
  String.mk (name.toList.take (name.toList.length - (baseName name.toList).length)
    ++ ".syncthing.".toList ++ baseName name.toList)

/-- A stateless sample environment: flag bits 12 (deleted) and 14 (directory),
128 KiB blocks, temporary names starting with `.syncthing.`, a `BlockDiff` that
reports the wanted blocks whose hash the temp file has; `WithNeed` always
delivers `need`, the index holds `cur`, hashing a temp file gives `temp`, and
every system call returns `osErr`. -/
def sampleWorld (need : List FileInfo) (cur : FileInfo)
    (temp : Except GoError (List BlockInfo)) (osErr : Option GoError) : World Unit where
  IsDeleted := fun flags => flags &&& 4096 != 0
  IsDirectory := fun flags => flags &&& 16384 != 0
  BlockSize := 131072
  blockString := fun b =>
    "Block\x7b" ++ toString b.Offset ++ "/" ++ toString b.Size ++ "/" ++ toString b.Hash
      ++ "\x7d"
  TempName := sampleTempName
  IsTemporary := fun path => (".syncthing.".toList).isPrefixOf (baseName path.toList)
  BlockDiff := fun src tgt =>
    (tgt.filter (fun b => src.any (fun a => decide (a.Hash = b.Hash))),
      tgt.filter (fun b => !src.any (fun a => decide (a.Hash = b.Hash))))
  sys := fun _ s => (osErr, s)
  stat := fun _ s =>
    (match osErr with
      | some e => Except.error e
      | none => Except.ok true, s)
  hashFile := fun _ _ s => (temp, s)
  currentFolderFile := fun _ _ s => (cur, s)
  withNeed := fun _ s => (need, s)
  remoteLocalVersion := fun _ s => (7, s)
  availability := fun _ _ s => ([], s)
  activity := fun _ _ => 0
  requestGlobal := fun _ _ _ _ _ _ s => (Except.error (.other 1), s)
  finalClose := fun _ s => ((true, none), s)

/-- A sample puller: folder `default` at `/sync`, no versioner. -/
def samplePuller : Puller :=
  { folder := "default", dir := "/sync", versioner := false, ignorePerms := false,
    lenientMtimes := false }

/-- A block with the given offset and a one-byte hash. -/
def sampleBlock (offset : Int) (hash : Nat) : BlockInfo :=
  { Offset := offset, Size := 131072, Hash := [hash] }

/-- A needed regular file `d.bin` of two blocks. -/
def sampleFile : FileInfo :=
  { Name := "d.bin", Flags := 0o644, Modified := 1400000000,
    Blocks := [sampleBlock 0 1, sampleBlock 0 2] }

/-- The local version of `d.bin`: one block, different from the target. -/
def sampleCurrent : FileInfo :=
  { Name := "d.bin", Flags := 0o644, Modified := 1300000000, Blocks := [sampleBlock 0 9] }

/-- A needed directory `dir`. -/
def sampleDir : FileInfo :=
  { Name := "dir", Flags := 16384 + 0o755, Modified := 1400000000, Blocks := [] }

/-- A folder with the directory `a`, which cannot be read, and the directory
`b`, which holds the regular temporary file `.syncthing.c` last modified at
time `0`. -/
def lockedTree : FsNode :=
  .dir 0 true
    (.entry "a" (.dir 0 false .nil)
      (.entry "b" (.dir 0 true (.entry ".syncthing.c" (.file true 0) .nil)) .nil))

/-- A folder holding only the regular temporary file `.syncthing.b`, last
modified at time `0`, and the regular file `c` of the same age. -/
def sampleCleanTree : FsNode :=
  .dir 0 true
    (.entry ".syncthing.b" (.file true 0)
      (.entry "c" (.file true 0) .nil))

/-- The environment of a folder whose only needed item is a directory that
cannot be examined: every system call fails with a permission error. -/
def stalledWorld : World Unit :=
  sampleWorld [sampleDir] sampleCurrent (Except.ok []) (some (.other 13))

/-- The pull tick of `Serve` in `stalledWorld`, after the first scan. -/
def stalledTick : TickResult Unit :=
  pullTick stalledWorld samplePuller { prevVer := 0, initialScanCompleted := true } ()

/-- The environment of scenario S3: the index holds another version of `d.bin`
and the stale temp file holds the first of the two needed blocks. -/
def reuseWorld : World Unit :=
  sampleWorld [sampleFile] sampleCurrent (Except.ok [sampleBlock 0 1]) none

/-- The environment in which hashing the stale temp file of `d.bin` fails. -/
def hashFailWorld : World Unit :=
  sampleWorld [sampleFile] sampleCurrent (Except.error (.other 5)) none

/-- The environment of scenario S4 for the copier.  The state is the first
error of the file's shared state: `earlyClose` records it once and `failed`
reads it; a puller that receives a block finds no device and fails the state
with `errNoDevice`; once the state is failed the temp file is closed, so
`WriteAt` on it and `tempFile` return an error; every other call succeeds.
Only blocks with hash `[2]` have a local claim, block 1 of `c.bin`. -/
def noDeviceWorld : CopierWorld (Option GoError) where
  IsDeleted := fun flags => flags &&& 4096 != 0
  IsDirectory := fun flags => flags &&& 16384 != 0
  BlockSize := 131072
  blockString := fun b => toString b.Hash
  TempName := sampleTempName
  IsTemporary := fun path => (".syncthing.".toList).isPrefixOf (baseName path.toList)
  BlockDiff := fun _ tgt => ([], tgt)
  sys := fun c e =>
    match c, e with
    | .failed _, e => (e, e)
    | .earlyClose _ _ err, none => (none, some err)
    | .pullChanSend _, none => (none, some errNoDevice)
    | .writeAt _ _ _, some err => (some (.other 9), some err)
    | .tempFile _, some err => (some err, some err)
    | _, e => (none, e)
  stat := fun _ e => (Except.ok true, e)
  hashFile := fun _ _ e => (Except.error .notExist, e)
  currentFolderFile := fun _ _ e => (sampleCurrent, e)
  withNeed := fun _ e => ([], e)
  remoteLocalVersion := fun _ e => (7, e)
  availability := fun _ _ e => ([], e)
  activity := fun _ _ => 0
  requestGlobal := fun _ _ _ _ _ _ e => (Except.error errNoDevice, e)
  finalClose := fun _ e => ((true, e), e)
  folderPath := fun _ => "/sync"
  finder := fun hash e => (if hash = [2] then [("default", "c.bin", 1)] else [], e)
  fdCacheGet := fun _ e => (false, e)
  readAt := fun _ _ _ e => (Except.ok [7, 7, 7, 7], e)

/-- The environment of a folder in which no temp file can be opened: every
system call fails with a permission error. -/
def noTempWorld : CopierWorld Unit where
  toWorld := sampleWorld [] sampleCurrent (Except.ok []) (some (.other 13))
  folderPath := fun _ => "/sync"
  finder := fun _ s => ([], s)
  fdCacheGet := fun _ s => (false, s)
  readAt := fun _ _ _ s => (Except.error (.other 13), s)

/-- Two pending blocks of four bytes: the first is block 1 of the local file
`c.bin`, the second has no local claim. -/
def sampleBlocks : List BlockInfo :=
  [{ Offset := 0, Size := 4, Hash := [2] }, { Offset := 4, Size := 4, Hash := [1] }]

/-- The state `handleFile` builds for a new file `e.bin` of `sampleBlocks`. -/
def sampleCopyState : copyBlocksState :=
  newCopyBlocksState samplePuller
    { Name := "e.bin", Flags := 0o644, Modified := 1400000000, Blocks := sampleBlocks }
    "/sync/.syncthing.e.bin" "/sync/e.bin" sampleBlocks 0

/-- Two pending blocks of four bytes, neither with a local claim. -/
def strandedBlocks : List BlockInfo :=
  [{ Offset := 0, Size := 4, Hash := [1] }, { Offset := 4, Size := 4, Hash := [3] }]

/-- The state `handleFile` builds for a new file `f.bin` of `strandedBlocks`. -/
def strandedCopyState : copyBlocksState :=
  newCopyBlocksState samplePuller
    { Name := "f.bin", Flags := 0o644, Modified := 1400000000, Blocks := strandedBlocks }
    "/sync/.syncthing.f.bin" "/sync/f.bin" strandedBlocks 0

/-- The environment of scenario S6: the stamp `RemoteLocalVersion` is `5` when
first read and `3` afterwards (a peer disconnected during the pass); nothing
is needed and every call succeeds.  The state counts the reads of the stamp. -/
def retreatWorld : World Nat where
  IsDeleted := fun flags => flags &&& 4096 != 0
  IsDirectory := fun flags => flags &&& 16384 != 0
  BlockSize := 131072
  blockString := fun b => toString b.Hash
  TempName := sampleTempName
  IsTemporary := fun path => (".syncthing.".toList).isPrefixOf (baseName path.toList)
  BlockDiff := fun _ tgt => ([], tgt)
  sys := fun _ n => (none, n)
  stat := fun _ n => (Except.ok true, n)
  hashFile := fun _ _ n => (Except.error .notExist, n)
  currentFolderFile := fun _ _ n => (sampleCurrent, n)
  withNeed := fun _ n => ([], n)
  remoteLocalVersion := fun _ n => (if n = 0 then 5 else 3, n + 1)
  availability := fun _ _ n => ([], n)
  activity := fun _ _ => 0
  requestGlobal := fun _ _ _ _ _ _ n => (Except.error errNoDevice, n)
  finalClose := fun _ n => ((true, none), n)

/-! ## Properties of the orchestrator -/

theorem handleDir_steps (w : World σ) (p : Puller) (file : FileInfo) (s : σ) :
    (handleDir w p file s).2.filter isStep = [] := by
  unfold handleDir
  simp only []
  repeat' split
  all_goals simp [isStep]

theorem deleteDir_steps (w : World σ) (p : Puller) (file : FileInfo) (s : σ) :
    (deleteDir w p file s).2.filter isStep = [] := by
  unfold deleteDir
  simp only []
  repeat' split
  all_goals simp [isStep]

theorem deleteFile_steps (w : World σ) (p : Puller) (file : FileInfo) (s : σ) :
    (deleteFile w p file s).2.filter isStep = [] := by
  unfold deleteFile
  simp only []
  repeat' split
  all_goals simp [isStep]

theorem shortcutFile_steps (w : World σ) (p : Puller) (file : FileInfo) (s : σ) :
    (shortcutFile w p file s).2.filter isStep = [] := by
  unfold shortcutFile
  simp only []
  repeat' split
  all_goals simp_all [isStep]

theorem handleFile_steps (w : World σ) (p : Puller) (file : FileInfo) (s : σ) :
    (handleFile w p file s).2.filter isStep = [] := by
  unfold handleFile
  simp only []
  repeat' split
  all_goals simp_all [isStep, shortcutFile_steps]

theorem needLoop_changed (w : World σ) (p : Puller) (items : List FileInfo) :
    ∀ (changed : Nat) (deletions : List FileInfo) (s : σ),
      (needLoop w p items changed deletions s).changed = changed + items.length := by
  induction items with
  | nil => intro changed deletions s; simp [needLoop]
  | cons file rest ih =>
    intro changed deletions s
    unfold needLoop
    simp only []
    repeat' split
    all_goals simp only [ih, List.length_cons]; omega

theorem needLoop_deletions (w : World σ) (p : Puller) (items : List FileInfo) :
    ∀ (changed : Nat) (deletions : List FileInfo) (s : σ),
      (needLoop w p items changed deletions s).deletions
        = deletions ++ items.filter (fun f => w.IsDeleted f.Flags) := by
  induction items with
  | nil => intro changed deletions s; simp [needLoop]
  | cons file rest ih =>
    intro changed deletions s
    unfold needLoop
    simp only []
    repeat' split
    all_goals simp_all

theorem needLoop_steps (w : World σ) (p : Puller) (items : List FileInfo) :
    ∀ (changed : Nat) (deletions : List FileInfo) (s : σ),
      (needLoop w p items changed deletions s).trace.filter isStep
        = (items.filter (fun f => !w.IsDeleted f.Flags)).map (handleStep w) := by
  induction items with
  | nil => intro changed deletions s; simp [needLoop]
  | cons file rest ih =>
    intro changed deletions s
    unfold needLoop
    simp only []
    repeat' split
    all_goals simp_all [isStep, handleStep, handleDir_steps, handleFile_steps, List.filter_cons]

theorem deleteLoop_steps (w : World σ) (p : Puller) (deletions : List FileInfo)
    (idx : List Nat) :
    ∀ (s : σ), (∀ i ∈ idx, i < deletions.length) →
      (deleteLoop w p deletions idx s).2.filter isStep
        = idx.filterMap (fun i => (deletions[deletions.length - i - 1]?).map (deleteStep w)) := by
  induction idx with
  | nil => intro s _; simp [deleteLoop]
  | cons i rest ih =>
    intro s hidx
    have hi : i < deletions.length := hidx i (by simp)
    have hrest : ∀ j ∈ rest, j < deletions.length := fun j hj => hidx j (by simp [hj])
    have hget : deletions[deletions.length - i - 1]? = some (deletions[deletions.length - i - 1]) :=
      List.getElem?_eq_getElem (by omega)
    unfold deleteLoop
    rw [hget]
    simp only []
    split
    all_goals
      simp only [List.filterMap_cons, hget, Option.map_some']
      simp_all [isStep, deleteStep, deleteDir_steps, deleteFile_steps, List.filter_cons]

theorem range_reverse_index {α β : Type} (f : α → β) (l : List α) :
    (List.range l.length).filterMap (fun i => (l[l.length - i - 1]?).map f)
      = l.reverse.map f := by
  induction l using List.reverseRecOn with
  | nil => simp
  | append_singleton l a ih =>
    rw [List.length_append, List.length_singleton, List.range_succ_eq_map]
    simp only [List.filterMap_cons, List.filterMap_map, List.reverse_append, List.reverse_singleton,
      List.singleton_append, List.map_cons]
    have h0 : (l ++ [a])[l.length + 1 - 0 - 1]? = some a := by simp
    rw [h0]
    simp only [Option.map_some']
    congr 1
    rw [← ih]
    apply List.filterMap_congr
    intro i hi
    have hi : i < l.length := List.mem_range.mp hi
    simp only [Function.comp]
    have : l.length + 1 - (i + 1) - 1 = l.length - i - 1 := by omega
    rw [this, List.getElem?_append_left (by omega)]

/-- Claim C1. For every sequence of needed items delivered by `WithNeed`,
`pullerIteration` returns exactly the number of items delivered: deleted
entries, directories and regular files count once each, whatever the outcome
of handling them (the environment `w` is arbitrary). -/
theorem pullerIteration_changed (w : World σ) (p : Puller)
    (ncopiers npullers nfinishers : Nat) (s : σ) :
    (pullerIteration w p ncopiers npullers nfinishers s).changed
      = (w.withNeed p.folder s).1.length := by
  simp [pullerIteration, needLoop_changed]

/-- Claim C2. In one `pullerIteration` the steps of the orchestrating goroutine
are, in this order: `handleDir`/`handleFile` for the visited items without the
deleted flag; then `close(copyChan)`, `copyWg.Wait()`, `close(pullChan)`,
`pullWg.Wait()`, `close(finisherChan)`, `doneWg.Wait()`, by which the copier,
puller and finisher stages have drained; and then, for the visited items with
the deleted flag taken in reverse order of visit, one `deleteDir`
(directories) or `deleteFile` (otherwise) each. -/
theorem pullerIteration_steps (w : World σ) (p : Puller)
    (ncopiers npullers nfinishers : Nat) (s : σ) :
    (pullerIteration w p ncopiers npullers nfinishers s).trace.filter isStep
      = (((w.withNeed p.folder s).1.filter (fun f => !w.IsDeleted f.Flags)).map (handleStep w)
          ++ [Call.closeCopyChan, Call.copyWgWait, Call.closePullChan, Call.pullWgWait,
              Call.closeFinisherChan, Call.doneWgWait])
        ++ (((w.withNeed p.folder s).1.filter (fun f => w.IsDeleted f.Flags)).reverse).map
            (deleteStep w) := by
  have hdel : (needLoop w p (w.withNeed p.folder s).1 0 [] (w.withNeed p.folder s).2).deletions
      = (w.withNeed p.folder s).1.filter (fun f => w.IsDeleted f.Flags) := by
    simp [needLoop_deletions]
  have hloop := deleteLoop_steps w p
    (needLoop w p (w.withNeed p.folder s).1 0 [] (w.withNeed p.folder s).2).deletions
    (List.range
      (needLoop w p (w.withNeed p.folder s).1 0 [] (w.withNeed p.folder s).2).deletions.length)
    (needLoop w p (w.withNeed p.folder s).1 0 [] (w.withNeed p.folder s).2).world
    (fun i hi => List.mem_range.mp hi)
  rw [range_reverse_index, hdel] at hloop
  simp only [pullerIteration, List.filter_append, needLoop_steps, hdel, hloop]
  simp [isStep, drainStages]

/-! ## Properties of the finisher stage -/

/-- Claim C3. For every state the finisher observes, with each call's result
taken in the environment state where the finisher would make the call: the
calls that replace and record the file are `rename(temp, real)` followed by
`updateLocal` when `finalClose` returned `(true, nil)`, the temp opened and
verified, `ignorePerms` is set or `chmod` succeeded, `chtimes` succeeded or
`lenientMtimes` is set, no versioner is configured or `Archive` succeeded, and
the rename succeeded; `rename` alone when all of these hold but the rename
failed; and neither call in every other case. -/
theorem finisherBody_replace (w : World σ) (p : Puller) (state : sharedPullerState) (s : σ) :
    let c := w.finalClose state s
    let o := w.sys (.osOpen state.tempName) c.2
    let v := w.sys (.verify state.tempName w.BlockSize state.file.Blocks) o.2
    let m := w.sys (.chmod state.tempName (state.file.Flags &&& 0o777)) v.2
    let s3 := if p.ignorePerms then v.2 else m.2
    let t := w.sys (.chtimes state.tempName state.file.Modified) s3
    let a := w.sys (.archive state.realName) t.2
    let s5 := if p.versioner then a.2 else t.2
    let r := w.sys (.rename state.tempName state.realName) s5
    (finisherBody w p state s).2.filter isReplace =
      if c.1 = (true, none) ∧ o.1 = none ∧ v.1 = none ∧ (p.ignorePerms = true ∨ m.1 = none)
          ∧ (t.1 = none ∨ p.lenientMtimes = true) ∧ (p.versioner = false ∨ a.1 = none) then
        if r.1 = none then
          [.rename state.tempName state.realName, .updateLocal p.folder state.file]
        else [.rename state.tempName state.realName]
      else [] := by
  intro c o v m s3 t a s5 r
  simp only [c, o, v, m, s3, t, a, s5, r, finisherBody]
  repeat' split
  all_goals simp_all [isReplace]


/-! ## Properties of `handleFile` -/

theorem takesShortcut_iff (cur tgt : List BlockInfo) :
    takesShortcut cur tgt = true ↔
      (cur.length = tgt.length ∧
        ∀ (i : Nat) (h1 : i < cur.length) (h2 : i < tgt.length), cur[i].Hash = tgt[i].Hash) := by
  unfold takesShortcut hashesMatch
  simp only [Bool.and_eq_true, decide_eq_true_eq, List.all_eq_true, List.mem_range]
  constructor
  · rintro ⟨hlen, h⟩
    refine ⟨hlen, fun i h1 h2 => ?_⟩
    have := h i h2
    simpa [List.getElem?_eq_getElem h1, List.getElem?_eq_getElem h2] using this
  · rintro ⟨hlen, h⟩
    refine ⟨hlen, fun i hi => ?_⟩
    have h1 : i < cur.length := hlen ▸ hi
    simpa [List.getElem?_eq_getElem h1, List.getElem?_eq_getElem hi] using h i h1 hi

theorem shortcutFile_calls (w : World σ) (p : Puller) (file : FileInfo) (s : σ) :
    shortcutCalls (shortcutFile w p file s).2 = [] ∧ copySends (shortcutFile w p file s).2 = []
      ∧ (shortcutFile w p file s).2.filter isTempCall = [] := by
  unfold shortcutFile
  simp only []
  repeat' split
  all_goals simp_all [shortcutCalls, copySends, isTempCall]

/-- Claim C4. `handleFile` takes the metadata-only shortcut (enters
`shortcutFile` once, sends nothing on the copy channel, makes no call that
hashes, opens, creates, writes, removes or renames a file) if and only if the
current and the target block lists have equal length and equal hashes at every
index, empty lists included; and it sends exactly one `copyBlocksState` without
entering `shortcutFile` if and only if that condition fails. -/
theorem handleFile_shortcut_iff (w : World σ) (p : Puller) (file : FileInfo) (s : σ) :
    ((shortcutCalls (handleFile w p file s).2 = [file]
        ∧ copySends (handleFile w p file s).2 = []
        ∧ (handleFile w p file s).2.filter isTempCall = [])
      ↔ ((w.currentFolderFile p.folder file.Name s).1.Blocks.length = file.Blocks.length
          ∧ ∀ (i : Nat) (h1 : i < (w.currentFolderFile p.folder file.Name s).1.Blocks.length)
              (h2 : i < file.Blocks.length),
              (w.currentFolderFile p.folder file.Name s).1.Blocks[i].Hash = file.Blocks[i].Hash))
    ∧ ((shortcutCalls (handleFile w p file s).2 = []
        ∧ ∃ cs, copySends (handleFile w p file s).2 = [cs])
      ↔ ¬ ((w.currentFolderFile p.folder file.Name s).1.Blocks.length = file.Blocks.length
          ∧ ∀ (i : Nat) (h1 : i < (w.currentFolderFile p.folder file.Name s).1.Blocks.length)
              (h2 : i < file.Blocks.length),
              (w.currentFolderFile p.folder file.Name s).1.Blocks[i].Hash = file.Blocks[i].Hash)) := by
  rw [← takesShortcut_iff]
  have hs := shortcutFile_calls w p file (w.currentFolderFile p.folder file.Name s).2
  unfold handleFile
  simp only []
  split
  · rename_i h
    simp [shortcutCalls, copySends, isTempCall, hs, h]
  · rename_i h
    repeat' split
    all_goals simp_all [shortcutCalls, copySends, isTempCall]

theorem PopulateOffsetsFrom_length (blocks : List BlockInfo) :
    ∀ offset : Int, (PopulateOffsetsFrom offset blocks).length = blocks.length := by
  induction blocks with
  | nil => intro offset; simp [PopulateOffsetsFrom]
  | cons b rest ih => intro offset; simp [PopulateOffsetsFrom, ih]

theorem pendingBlocks_sublist (w : World σ) (tempBlocks fileBlocks : List BlockInfo) :
    (pendingBlocks w tempBlocks fileBlocks).Sublist fileBlocks := by
  unfold pendingBlocks
  exact List.filter_sublist _

theorem pendingBlocks_not_reusable (w : World σ) (tempBlocks fileBlocks : List BlockInfo) :
    ∀ b ∈ (w.BlockDiff tempBlocks fileBlocks).1, b ∉ pendingBlocks w tempBlocks fileBlocks := by
  intro b hb hmem
  unfold pendingBlocks at hmem
  simp only [List.mem_filter, Bool.not_eq_true', List.contains_eq_any_beq, List.any_eq_false,
    List.mem_map, beq_iff_eq, forall_exists_index, and_imp, forall_apply_eq_imp_iff₂] at hmem
  exact hmem.2 b hb rfl

theorem pendingBlocks_injective (w : World σ) (tempBlocks fileBlocks : List BlockInfo)
    (hinj : ∀ a b, w.blockString a = w.blockString b → a = b) :
    pendingBlocks w tempBlocks fileBlocks
      = fileBlocks.filter (fun b => decide (b ∉ (w.BlockDiff tempBlocks fileBlocks).1)) := by
  unfold pendingBlocks
  apply List.filter_congr
  intro b _
  have hiff : (((w.BlockDiff tempBlocks fileBlocks).1.map w.blockString).contains
      (w.blockString b) = true) ↔ b ∈ (w.BlockDiff tempBlocks fileBlocks).1 := by
    rw [List.contains_iff_exists_mem_beq]
    simp only [List.mem_map, beq_iff_eq]
    constructor
    · rintro ⟨k, ⟨a, ha, hak⟩, hk⟩
      exact (hinj a b (hak.trans hk.symm)) ▸ ha
    · intro hb
      exact ⟨w.blockString b, ⟨b, hb, rfl⟩, rfl⟩
  by_cases hb : b ∈ (w.BlockDiff tempBlocks fileBlocks).1
  · rw [hiff.mpr hb]
    simp [hb]
  · have : ¬ (((w.BlockDiff tempBlocks fileBlocks).1.map w.blockString).contains
        (w.blockString b) = true) := fun h => hb (hiff.mp h)
    simp only [Bool.not_eq_true] at this
    rw [this]
    simp [hb]

/-- Claim C5. When `handleFile` does not take the shortcut it sends exactly one
`copyBlocksState`; with `target` the target block list (offsets populated):
its pending list is a subsequence of `target`; `reused = len(target) -
len(pending)`; `copyTotal = copyNeeded = len(pending)`; `reused + copyNeeded =
len(target)` and `0 <= reused <= len(target)`.  When hashing the temp fails,
pending is all of `target` and `reused = 0`.  When it succeeds, pending is
`target` without the blocks whose `String()` is that of a block `BlockDiff`
reported reusable; no reusable block is pending, and for an injective
`String()` pending is exactly `target` without the reusable blocks. -/
theorem handleFile_state (w : World σ) (p : Puller) (file : FileInfo) (s : σ)
    (h : takesShortcut (w.currentFolderFile p.folder file.Name s).1.Blocks file.Blocks = false) :
    let target := PopulateOffsets file.Blocks
    let temp := (w.hashFile (filepathJoin p.dir (w.TempName file.Name)) w.BlockSize
      (w.currentFolderFile p.folder file.Name s).2).1
    ∃ cs : copyBlocksState,
      copySends (handleFile w p file s).2 = [cs]
      ∧ cs.sharedPullerState.file.Blocks = target
      ∧ target.length = file.Blocks.length
      ∧ cs.blocks.Sublist target
      ∧ cs.sharedPullerState.reused = (target.length : Int) - (cs.blocks.length : Int)
      ∧ cs.sharedPullerState.copyTotal = cs.blocks.length
      ∧ cs.sharedPullerState.copyNeeded = cs.blocks.length
      ∧ cs.sharedPullerState.reused + (cs.sharedPullerState.copyNeeded : Int) = (target.length : Int)
      ∧ 0 ≤ cs.sharedPullerState.reused
      ∧ cs.sharedPullerState.reused ≤ (target.length : Int)
      ∧ (∀ e, temp = Except.error e → cs.blocks = target ∧ cs.sharedPullerState.reused = 0)
      ∧ (∀ tempBlocks, temp = Except.ok tempBlocks →
          cs.blocks = target.filter (fun b =>
            !(((w.BlockDiff tempBlocks target).1.map w.blockString).contains (w.blockString b)))
          ∧ (∀ b ∈ (w.BlockDiff tempBlocks target).1, b ∉ cs.blocks)
          ∧ ((∀ a b, w.blockString a = w.blockString b → a = b) →
              cs.blocks = target.filter
                (fun b => decide (b ∉ (w.BlockDiff tempBlocks target).1)))) := by
  intro target temp
  have hlen : target.length = file.Blocks.length := PopulateOffsetsFrom_length _ _
  unfold handleFile
  simp only [h, Bool.false_eq_true, if_false]
  rcases htemp : w.hashFile (filepathJoin p.dir (w.TempName file.Name)) w.BlockSize
      (w.currentFolderFile p.folder file.Name s).2 with ⟨res, s2⟩
  have htemp1 : temp = res := by simp [temp, htemp]
  cases res with
  | error e =>
    refine ⟨newCopyBlocksState p { file with Blocks := target }
      (filepathJoin p.dir (w.TempName file.Name)) (filepathJoin p.dir file.Name) target 0,
      by simp [copySends, target], rfl, hlen, List.Sublist.refl _, ?_, rfl, rfl, ?_, le_refl _,
      ?_, ?_, ?_⟩
    · simp [newCopyBlocksState]
    · simp [newCopyBlocksState]
    · simp [newCopyBlocksState]
    · intro _ _; exact ⟨rfl, rfl⟩
    · intro tb htb; rw [htemp1] at htb; cases htb
  | ok tempBlocks =>
    have hsub := pendingBlocks_sublist w tempBlocks target
    have hle : (pendingBlocks w tempBlocks target).length ≤ target.length := hsub.length_le
    have key : ∀ tb, temp = Except.ok tb → tb = tempBlocks := by
      intro tb htb; rw [htemp1] at htb; cases htb; rfl
    refine ⟨newCopyBlocksState p { file with Blocks := target }
      (filepathJoin p.dir (w.TempName file.Name)) (filepathJoin p.dir file.Name)
      (pendingBlocks w tempBlocks target)
      ((target.length : Int) - ((pendingBlocks w tempBlocks target).length : Int)),
      ?_, rfl, hlen, hsub, rfl, rfl, rfl, ?_, ?_, ?_, ?_, ?_⟩
    · simp only []
      split <;> simp [copySends, target]
    · simp only [newCopyBlocksState]; omega
    · simp only [newCopyBlocksState]; omega
    · simp only [newCopyBlocksState]; omega
    · intro e he; rw [htemp1] at he; cases he
    · intro tb htb
      rw [key tb htb]
      exact ⟨rfl, pendingBlocks_not_reusable w tempBlocks target,
        pendingBlocks_injective w tempBlocks target⟩

/-- Witness for claim C5, scenario S3: the index holds another version of
`d.bin`, so the shortcut is not taken, and the state sent satisfies the
accounting of reused and pending blocks. -/
theorem handleFile_state_witness :
    takesShortcut (reuseWorld.currentFolderFile samplePuller.folder sampleFile.Name ()).1.Blocks
        sampleFile.Blocks = false
    ∧ ∃ cs : copyBlocksState,
        copySends (handleFile reuseWorld samplePuller sampleFile ()).2 = [cs]
        ∧ cs.blocks.Sublist (PopulateOffsets sampleFile.Blocks)
        ∧ cs.sharedPullerState.reused + (cs.sharedPullerState.copyNeeded : Int)
            = ((PopulateOffsets sampleFile.Blocks).length : Int) := by
  refine ⟨by decide, ?_⟩
  obtain ⟨cs, h1, _, _, h4, _, _, _, h8, _⟩ :=
    handleFile_state reuseWorld samplePuller sampleFile () (by decide)
  exact ⟨cs, h1, h4, h8⟩

/-- Claim C6, evaluated where it fails: the target `d.bin` differs from the
indexed version and hashing its stale temp file returns an error.  `handleFile`
then hashes the temp and sends a state with `reused = 0` whose pending list is
the whole target, and calls `os.Remove` on the temp name nowhere. -/
theorem handleFile_hash_failure_keeps_temp :
    (handleFile hashFailWorld samplePuller sampleFile ()).2
      = [.currentFolderFile "default" "d.bin", .hashFile "/sync/.syncthing.d.bin" 131072,
          .copyChanSend (newCopyBlocksState samplePuller
            { sampleFile with Blocks := [sampleBlock 0 1, sampleBlock 131072 2] }
            "/sync/.syncthing.d.bin" "/sync/d.bin"
            [sampleBlock 0 1, sampleBlock 131072 2] 0)] := by
  rfl

/-! ## Properties of the puller stage -/

/-- Claim C7. For every `pullBlockState` the puller consumes, with each call's
result taken in the environment state where the routine would make the call:
`pullDone` is called and the state forwarded to the finisher exactly when the
state was not failed, `leastBusy` selected a non-zero device, `tempFile`,
`requestGlobal` and the write at `block.Offset` succeeded.  Otherwise there is
neither: a state that is not failed and has no device gets
`earlyClose("pull", errNoDevice)` and no request (`leastBusy` of no candidates
is the zero device); a request error gives `earlyClose("pull", err)`, a write
error `earlyClose("save", err)`; a failed state or a failed `tempFile` gives
no further call. -/
theorem pullerBody_outcome (w : World σ) (p : Puller) (state : pullBlockState) (s : σ) :
    let sp := state.sharedPullerState
    let f := w.sys (.failed sp) s
    let av := w.availability p.folder sp.file.Name f.2
    let selected := leastBusy (w.activity av.2) av.1
    let tf := w.sys (.tempFile sp) av.2
    let rq := w.requestGlobal selected p.folder sp.file.Name state.block.Offset
      state.block.Size state.block.Hash (w.sys (.using selected) tf.2).2
    let s4 := (w.sys (.done selected) rq.2).2
    let request := Call.requestGlobal selected p.folder sp.file.Name state.block.Offset
      state.block.Size state.block.Hash
    ((pullerBody w p state s).2.filter isPullOutcome =
      if f.1 = none ∧ selected ≠ 0 ∧ tf.1 = none then
        match rq.1 with
        | Except.error err => [request, .earlyClose sp "pull" err]
        | Except.ok buf =>
          match (w.sys (.writeAt sp.tempName buf state.block.Offset) s4).1 with
          | some err => [request, .earlyClose sp "save" err]
          | none => [request, .pullDone sp, .finisherChanSend sp]
      else if f.1 = none ∧ selected = 0 then [.earlyClose sp "pull" errNoDevice]
      else [])
    ∧ ((Call.pullDone sp ∈ (pullerBody w p state s).2
          ∧ Call.finisherChanSend sp ∈ (pullerBody w p state s).2)
        ↔ (f.1 = none ∧ selected ≠ 0 ∧ tf.1 = none
          ∧ ∃ buf, rq.1 = Except.ok buf
            ∧ (w.sys (.writeAt sp.tempName buf state.block.Offset) s4).1 = none))
    ∧ leastBusy (w.activity av.2) [] = 0 := by
  intro sp f av selected tf rq s4 request
  refine ⟨?_, ?_, rfl⟩
  · simp only [sp, f, av, selected, tf, rq, s4, request, pullerBody]
    repeat' split
    all_goals simp_all [isPullOutcome]
  · simp only [sp, f, av, selected, tf, rq, s4, pullerBody]
    repeat' split
    all_goals simp_all


/-! ## Properties of the control loop -/

theorem handleDir_serve (w : World σ) (p : Puller) (file : FileInfo) (s : σ) :
    (handleDir w p file s).2.filter isServeStep = [] := by
  unfold handleDir
  simp only []
  repeat' split
  all_goals simp [isServeStep]

theorem deleteDir_serve (w : World σ) (p : Puller) (file : FileInfo) (s : σ) :
    (deleteDir w p file s).2.filter isServeStep = [] := by
  unfold deleteDir
  simp only []
  repeat' split
  all_goals simp [isServeStep]

theorem deleteFile_serve (w : World σ) (p : Puller) (file : FileInfo) (s : σ) :
    (deleteFile w p file s).2.filter isServeStep = [] := by
  unfold deleteFile
  simp only []
  repeat' split
  all_goals simp [isServeStep]

theorem shortcutFile_serve (w : World σ) (p : Puller) (file : FileInfo) (s : σ) :
    (shortcutFile w p file s).2.filter isServeStep = [] := by
  unfold shortcutFile
  simp only []
  repeat' split
  all_goals simp_all [isServeStep]

theorem handleFile_serve (w : World σ) (p : Puller) (file : FileInfo) (s : σ) :
    (handleFile w p file s).2.filter isServeStep = [] := by
  unfold handleFile
  simp only []
  repeat' split
  all_goals simp_all [isServeStep, shortcutFile_serve]

theorem needLoop_serve (w : World σ) (p : Puller) (items : List FileInfo) :
    ∀ (changed : Nat) (deletions : List FileInfo) (s : σ),
      (needLoop w p items changed deletions s).trace.filter isServeStep = [] := by
  induction items with
  | nil => intro changed deletions s; simp [needLoop]
  | cons file rest ih =>
    intro changed deletions s
    unfold needLoop
    simp only []
    repeat' split
    all_goals
      simp only [List.filter_cons, List.filter_append, ih, handleDir_serve, handleFile_serve,
        List.append_nil]
      rfl

theorem deleteLoop_serve (w : World σ) (p : Puller) (deletions : List FileInfo)
    (idx : List Nat) :
    ∀ (s : σ), (deleteLoop w p deletions idx s).2.filter isServeStep = [] := by
  induction idx with
  | nil => intro s; simp [deleteLoop]
  | cons i rest ih =>
    intro s
    unfold deleteLoop
    simp only []
    repeat' split
    · simp
    all_goals
      simp only [List.filter_cons, List.filter_append, ih, deleteDir_serve, deleteFile_serve,
        List.append_nil]
      rfl

theorem pullerIteration_serve (w : World σ) (p : Puller)
    (ncopiers npullers nfinishers : Nat) (s : σ) :
    (pullerIteration w p ncopiers npullers nfinishers s).trace.filter isServeStep = [] := by
  simp [pullerIteration, List.filter_append, needLoop_serve, deleteLoop_serve, isServeStep,
    drainStages]

theorem retryLoop_stalled (w : World σ) (p : Puller) (curVer prevVer : Nat) :
    ∀ (n tries : Nat) (s : σ), tries + n = 10 →
      (∀ c ∈ (retryLoop w p curVer prevVer tries s).passes, c ≠ 0) →
      (retryLoop w p curVer prevVer tries s).passes.length = n + 1
      ∧ (retryLoop w p curVer prevVer tries s).trace.filter isServeStep
          = List.replicate (n + 1) Call.pullerIteration
            ++ [.warnNoProgress p.folder pauseIntv, .pullTimerReset pauseIntv]
      ∧ (retryLoop w p curVer prevVer tries s).prevVer = prevVer
      ∧ (retryLoop w p curVer prevVer tries s).versions = [] := by
  intro n
  induction n with
  | zero =>
    intro tries s ht hall
    have ht : tries = 10 := by omega
    subst ht
    rw [retryLoop] at hall ⊢
    simp only [] at hall ⊢
    split
    · rename_i h0
      simp [h0] at hall
    · simp [List.filter_append, pullerIteration_serve, isServeStep, List.replicate]
  | succ n ih =>
    intro tries s ht hall
    rw [retryLoop] at hall ⊢
    simp only [] at hall ⊢
    split
    · rename_i h0
      simp [h0] at hall
    · rename_i h0
      have hlt : ¬ (tries + 1 > 10) := by omega
      simp only [h0, hlt, if_false] at hall ⊢
      have hrec := ih (tries + 1)
        (pullerIteration w p copiersPerFolder pullersPerFolder finishersPerFolder s).world
        (by omega) (fun c hc => hall c (List.mem_cons_of_mem _ hc))
      obtain ⟨h1, h2, h3, h4⟩ := hrec
      refine ⟨by simp [h1], ?_, h3, h4⟩
      simp [List.filter_append, pullerIteration_serve, isServeStep, h2, List.replicate_succ]

theorem retryLoop_skip (w : World σ) (p : Puller) (curVer prevVer : Nat) :
    ∀ (k tries : Nat) (s : σ), tries + k ≤ 10 →
      (∀ j, j < k → (pullerIteration w p copiersPerFolder pullersPerFolder finishersPerFolder
        (passStart w p j s)).changed ≠ 0) →
      (retryLoop w p curVer prevVer tries s).prevVer
        = (retryLoop w p curVer prevVer (tries + k) (passStart w p k s)).prevVer := by
  intro k
  induction k with
  | zero => intro tries s _ _; rfl
  | succ k ih =>
    intro tries s hk hnz
    have h0 : (pullerIteration w p copiersPerFolder pullersPerFolder finishersPerFolder
        s).changed ≠ 0 := hnz 0 (by omega)
    have hlt : ¬ (tries + 1 > 10) := by omega
    rw [retryLoop]
    simp only [h0, hlt, if_false]
    have hrec := ih (tries + 1)
      (pullerIteration w p copiersPerFolder pullersPerFolder finishersPerFolder s).world
      (by omega) (fun j hj => hnz (j + 1) (by omega))
    rw [hrec]
    have : tries + 1 + k = tries + (k + 1) := by omega
    rw [this]
    rfl

theorem retryLoop_zero (w : World σ) (p : Puller) (curVer prevVer tries : Nat) (s : σ)
    (h0 : (pullerIteration w p copiersPerFolder pullersPerFolder finishersPerFolder
      s).changed = 0) :
    (retryLoop w p curVer prevVer tries s).prevVer
      = min curVer (w.remoteLocalVersion p.folder
          (pullerIteration w p copiersPerFolder pullersPerFolder finishersPerFolder
            s).world).1 := by
  rw [retryLoop]
  simp only [h0, if_true]
  split <;> omega

theorem retryLoop_backoff (w : World σ) (p : Puller) (curVer prevVer tries : Nat) (s : σ)
    (ht : 10 ≤ tries)
    (h0 : (pullerIteration w p copiersPerFolder pullersPerFolder finishersPerFolder
      s).changed ≠ 0) :
    (retryLoop w p curVer prevVer tries s).prevVer = prevVer := by
  have hgt : tries + 1 > 10 := by omega
  rw [retryLoop]
  simp only [h0, hgt, if_true, if_false]

theorem retryLoop_passes_changed (w : World σ) (p : Puller) (curVer prevVer : Nat) :
    ∀ (n tries : Nat) (s : σ), 10 - tries = n →
      ∀ c ∈ (retryLoop w p curVer prevVer tries s).passes,
        ∃ s1 : σ, c = (w.withNeed p.folder s1).1.length := by
  intro n
  induction n with
  | zero =>
    intro tries s ht
    have hgt : tries + 1 > 10 := by omega
    rw [retryLoop]
    simp only []
    by_cases h0 : (pullerIteration w p copiersPerFolder pullersPerFolder finishersPerFolder
      s).changed = 0
    · simp only [h0, if_true, List.mem_singleton]
      intro c hc
      exact ⟨s, by rw [hc, ← h0]; simp [pullerIteration, needLoop_changed]⟩
    · simp only [h0, hgt, if_true, if_false, List.mem_singleton]
      intro c hc
      exact ⟨s, by rw [hc]; simp [pullerIteration, needLoop_changed]⟩
  | succ n ih =>
    intro tries s ht
    have hlt : ¬ (tries + 1 > 10) := by omega
    rw [retryLoop]
    simp only []
    by_cases h0 : (pullerIteration w p copiersPerFolder pullersPerFolder finishersPerFolder
      s).changed = 0
    · simp only [h0, if_true, List.mem_singleton]
      intro c hc
      exact ⟨s, by rw [hc, ← h0]; simp [pullerIteration, needLoop_changed]⟩
    · simp only [h0, hlt, if_false, List.mem_cons]
      intro c hc
      rcases hc with hc | hc
      · exact ⟨s, by rw [hc]; simp [pullerIteration, needLoop_changed]⟩
      · exact ih (tries + 1) _ (by omega) c hc

theorem pullTick_stalled_steps (w : World σ) (p : Puller) (v : ServeVars) (s : σ)
    (hscan : v.initialScanCompleted = true)
    (hver : (w.remoteLocalVersion p.folder s).1 ≠ v.prevVer)
    (hall : ∀ c ∈ (pullTick w p v s).passes, c ≠ 0) :
    (pullTick w p v s).passes.length = 11
    ∧ (pullTick w p v s).trace.filter isServeStep
        = [.remoteLocalVersion p.folder, .setState p.folder .FolderSyncing]
          ++ List.replicate 11 Call.pullerIteration
          ++ [.warnNoProgress p.folder pauseIntv, .pullTimerReset pauseIntv,
              .setState p.folder .FolderIdle]
    ∧ pauseIntv = 60 * 1000000000
    ∧ (pullTick w p v s).prevVer = v.prevVer := by
  unfold pullTick at hall ⊢
  simp only [hscan, Bool.not_true, Bool.false_eq_true, if_false, hver] at hall ⊢
  obtain ⟨h1, h2, h3, _⟩ := retryLoop_stalled w p (w.remoteLocalVersion p.folder s).1 v.prevVer
    10 0 _ (by omega) hall
  refine ⟨h1, ?_, rfl, h3⟩
  simp only [List.filter_append, h2]
  rfl

theorem stalledTick_passes : ∀ c ∈ stalledTick.passes, c ≠ 0 := by
  intro c hc
  unfold stalledTick pullTick at hc
  simp only [Bool.not_true, Bool.false_eq_true, if_false] at hc
  have hv : (stalledWorld.remoteLocalVersion samplePuller.folder ()).1 ≠ 0 := by decide
  simp only [hv, if_false] at hc
  obtain ⟨s1, hs1⟩ := retryLoop_passes_changed _ _ _ _ 10 0 _ (by omega) c hc
  rw [hs1]
  simp [stalledWorld, sampleWorld]

/-- Claim C8, as amended. Within one pull tick of `Serve` that enters the retry
loop, if every pull pass reports a nonzero change count, the loop runs exactly
eleven passes (`tries > 10` first holds after the eleventh), then emits the
no-progress warning and rearms the pull timer at `pauseIntv` = 60 s; `prevVer`
is left unchanged. -/
theorem pullTick_stalled (w : World σ) (p : Puller) (v : ServeVars) (s : σ)
    (hscan : v.initialScanCompleted = true)
    (hver : (w.remoteLocalVersion p.folder s).1 ≠ v.prevVer)
    (hall : ∀ c ∈ (pullTick w p v s).passes, c ≠ 0) :
    (pullTick w p v s).passes.length = 11
    ∧ (pullTick w p v s).trace.filter isServeStep
        = [.remoteLocalVersion p.folder, .setState p.folder .FolderSyncing]
          ++ List.replicate 11 Call.pullerIteration
          ++ [.warnNoProgress p.folder pauseIntv, .pullTimerReset pauseIntv,
              .setState p.folder .FolderIdle]
    ∧ pauseIntv = 60 * 1000000000
    ∧ (pullTick w p v s).prevVer = v.prevVer :=
  pullTick_stalled_steps w p v s hscan hver hall

/-- Witness for claim C8: the stalled folder, where every pass finds the same
directory it cannot create, runs eleven passes and backs off. -/
theorem pullTick_stalled_witness :
    (∀ c ∈ stalledTick.passes, c ≠ 0)
    ∧ stalledTick.passes.length = 11
    ∧ stalledTick.trace.filter isServeStep
        = [.remoteLocalVersion "default", .setState "default" .FolderSyncing]
          ++ List.replicate 11 Call.pullerIteration
          ++ [.warnNoProgress "default" pauseIntv, .pullTimerReset pauseIntv,
              .setState "default" .FolderIdle] :=
  ⟨stalledTick_passes,
    (pullTick_stalled stalledWorld samplePuller { prevVer := 0, initialScanCompleted := true } ()
      rfl (by decide) stalledTick_passes).1,
    (pullTick_stalled stalledWorld samplePuller { prevVer := 0, initialScanCompleted := true } ()
      rfl (by decide) stalledTick_passes).2.1⟩

/-- Counterexample to claim C8 as stated: in the stalled folder every pass
reports a nonzero change count, and the tick runs eleven passes, not ten. -/
theorem pullTick_ten_passes_counterexample :
    (∀ c ∈ stalledTick.passes, c ≠ 0)
    ∧ stalledTick.passes.length = 11
    ∧ stalledTick.passes.length ≠ 10 := by
  have h := (pullTick_stalled_steps stalledWorld samplePuller
    { prevVer := 0, initialScanCompleted := true } () rfl (by decide) stalledTick_passes).1
  exact ⟨stalledTick_passes, h, by rw [show stalledTick.passes.length = 11 from h]; decide⟩

/-- Claim C9. In a pull tick of `Serve` that enters the retry loop, `curVer`
being `RemoteLocalVersion` as read at the start of the tick: when pass number
`k` is the first to report zero changes, `prevVer` becomes `min(curVer, lv)`
with `lv` the value `RemoteLocalVersion` returns in the environment that pass
leaves behind; when all eleven passes report changes and the loop ends by
back-off, `prevVer` is left unchanged. -/
theorem pullTick_prevVer (w : World σ) (p : Puller) (v : ServeVars) (s : σ) (k : Nat)
    (hscan : v.initialScanCompleted = true)
    (hver : (w.remoteLocalVersion p.folder s).1 ≠ v.prevVer)
    (hk : k ≤ 10)
    (hnz : ∀ j, j < k →
      (pullerIteration w p copiersPerFolder pullersPerFolder finishersPerFolder
        (passStart w p j (w.sys (.setState p.folder .FolderSyncing)
          (w.remoteLocalVersion p.folder s).2).2)).changed ≠ 0) :
    ((pullerIteration w p copiersPerFolder pullersPerFolder finishersPerFolder
        (passStart w p k (w.sys (.setState p.folder .FolderSyncing)
          (w.remoteLocalVersion p.folder s).2).2)).changed = 0 →
      (pullTick w p v s).prevVer
        = min (w.remoteLocalVersion p.folder s).1
            (w.remoteLocalVersion p.folder
              (pullerIteration w p copiersPerFolder pullersPerFolder finishersPerFolder
                (passStart w p k (w.sys (.setState p.folder .FolderSyncing)
                  (w.remoteLocalVersion p.folder s).2).2)).world).1)
    ∧ (k = 10 →
        (pullerIteration w p copiersPerFolder pullersPerFolder finishersPerFolder
          (passStart w p k (w.sys (.setState p.folder .FolderSyncing)
            (w.remoteLocalVersion p.folder s).2).2)).changed ≠ 0 →
        (pullTick w p v s).prevVer = v.prevVer) := by
  have hp : (pullTick w p v s).prevVer
      = (retryLoop w p (w.remoteLocalVersion p.folder s).1 v.prevVer (0 + k)
          (passStart w p k (w.sys (.setState p.folder .FolderSyncing)
            (w.remoteLocalVersion p.folder s).2).2)).prevVer := by
    rw [← retryLoop_skip w p _ _ k 0 _ (by omega) hnz]
    simp [pullTick, hscan, hver]
  rw [hp]
  exact ⟨fun h0 => retryLoop_zero w p _ _ _ _ h0,
    fun h10 h0 => retryLoop_backoff w p _ _ _ _ (by omega) h0⟩

/-- Witness for claim C9, scenario S6: the stamp reads `V1 = 5` at the start of
the tick and `V0 = 3` after the first pass, which reports zero changes; the
tick records `prevVer = 3`. -/
theorem pullTick_prevVer_witness :
    (retreatWorld.remoteLocalVersion samplePuller.folder 0).1 = 5
    ∧ (pullerIteration retreatWorld samplePuller copiersPerFolder pullersPerFolder
        finishersPerFolder 1).changed = 0
    ∧ (retreatWorld.remoteLocalVersion samplePuller.folder
        (pullerIteration retreatWorld samplePuller copiersPerFolder pullersPerFolder
          finishersPerFolder 1).world).1 = 3
    ∧ (pullTick retreatWorld samplePuller { prevVer := 1, initialScanCompleted := true }
        0).prevVer = 3 :=
  ⟨rfl, rfl, rfl,
    (pullTick_prevVer retreatWorld samplePuller { prevVer := 1, initialScanCompleted := true }
      0 0 rfl (by decide) (by decide) (fun j hj => absurd hj (Nat.not_lt_zero j))).1 rfl⟩

/-! ## Properties of `clean` -/

theorem cleanFn_ok (w : World σ) (keep now : Int) (path : String) (info : FileStat) :
    cleanFn w keep now path info none = (removals w keep now [(path, info)], none) := by
  unfold cleanFn removals isOldTemporary
  by_cases h : (info.IsRegular && w.IsTemporary path && decide (info.ModTime + keep < now)) = true
  · simp [h, List.filter_cons]
  · simp [h, List.filter_cons]

theorem removals_append (w : World σ) (keep now : Int) (a b : List (String × FileStat)) :
    removals w keep now (a ++ b) = removals w keep now a ++ removals w keep now b := by
  simp [removals]

theorem removals_dir (w : World σ) (keep now : Int) (path : String) (m : Int) (r : Bool)
    (es : FsEntries) (rest : List (String × FileStat)) :
    removals w keep now ((path, (FsNode.dir m r es).info) :: rest) = removals w keep now rest := by
  simp [removals, FsNode.info, isOldTemporary, List.filter_cons]

mutual
theorem walk_clean (w : World σ) (keep now : Int) (path : String) :
    ∀ node : FsNode,
      (walk (cleanFn w keep now) path node).1.Sublist (removals w keep now (node.entries path))
      ∧ (node.walkable = true →
          walk (cleanFn w keep now) path node
            = (removals w keep now (node.entries path), none))
  | .file regular modTime => by
    simp [walk, cleanFn_ok, FsNode.entries]
  | .dir modTime readable entries => by
    have ih := walkNames_clean w keep now path entries
    simp only [walk, cleanFn_ok, FsNode.entries, FsNode.walkable, removals_dir]
    have h0 : removals w keep now [] = [] := rfl
    rw [h0]
    cases readable with
    | true =>
      simp only [if_true, List.nil_append, Bool.true_and]
      exact ⟨ih.1, fun hw => by rw [ih.2 hw]⟩
    | false =>
      simp [cleanFn]
theorem walkNames_clean (w : World σ) (keep now : Int) (path : String) :
    ∀ entries : FsEntries,
      (walkNames (cleanFn w keep now) path entries).1.Sublist
        (removals w keep now (entries.entries path))
      ∧ (entries.walkable = true →
          walkNames (cleanFn w keep now) path entries
            = (removals w keep now (entries.entries path), none))
  | .nil => by simp [walkNames, FsEntries.entries, removals]
  | .broken name rest => by
    simp [walkNames, cleanFn, FsEntries.walkable]
  | .entry name node rest => by
    have ih1 := walk_clean w keep now (filepathJoin path name) node
    have ih2 := walkNames_clean w keep now path rest
    simp only [walkNames, FsEntries.entries, FsEntries.walkable, removals_append,
      Bool.and_eq_true]
    constructor
    · cases h : (walk (cleanFn w keep now) (filepathJoin path name) node).2 with
      | some e =>
        simp only []
        exact ih1.1.trans (List.sublist_append_left _ _)
      | none =>
        simp only []
        exact List.Sublist.append ih1.1 ih2.1
    · rintro ⟨h1, h2⟩
      rw [ih1.2 h1, ih2.2 h2]
end

theorem keepDuration_eq (h : Int) (h0 : 0 ≤ h) (h1 : h ≤ 2562047) :
    keepDuration h = h * Hour := by
  unfold keepDuration wrapInt64 Hour
  omega

/-- Claim C10, as amended. For every folder tree, the `os.Remove` calls of
`clean()` are, in walk order, calls on regular files with a temporary name whose
modification time plus `keep` is strictly before `now`, each such entry at most
once and nothing else; and when the walk meets no error (every directory can be
read, `os.Lstat` succeeds on every name) every such entry is removed.  For
`KeepTemporariesH` between 0 and 2562047 hours `keep` is that many hours. -/
theorem clean_removes (w : World σ) (p : Puller) (KeepTemporariesH now : Int) (root : FsNode) :
    (clean w p KeepTemporariesH now (some root)).Sublist
        (removals w (keepDuration KeepTemporariesH) now (root.entries p.dir))
    ∧ (root.walkable = true →
        clean w p KeepTemporariesH now (some root)
          = removals w (keepDuration KeepTemporariesH) now (root.entries p.dir))
    ∧ (0 ≤ KeepTemporariesH → KeepTemporariesH ≤ 2562047 →
        keepDuration KeepTemporariesH = KeepTemporariesH * Hour) := by
  have h := walk_clean w (keepDuration KeepTemporariesH) now p.dir root
  refine ⟨h.1, fun hw => ?_, keepDuration_eq KeepTemporariesH⟩
  simp [clean, Walk, h.2 hw]

/-- Witness for claim C10: a readable folder with an old temporary file and an
ordinary file of the same age; only the temporary file is removed. -/
theorem clean_removes_witness :
    sampleCleanTree.sorted = true
    ∧ sampleCleanTree.walkable = true
    ∧ clean hashFailWorld samplePuller 24 (100 * Hour) (some sampleCleanTree)
        = removals hashFailWorld (keepDuration 24) (100 * Hour)
            (sampleCleanTree.entries samplePuller.dir) :=
  ⟨by decide, by decide,
    (clean_removes hashFailWorld samplePuller 24 (100 * Hour) sampleCleanTree).2.1 (by decide)⟩

/-- Counterexample to claim C10 as stated: the folder lists, in lexical order,
a directory `a` that cannot be read and a directory `b` holding a regular
temporary file last modified 100 hours before `now`, with 24 hours to keep;
the walk ends at `a` and `clean()` calls `os.Remove` on nothing. -/
theorem clean_unreadable_counterexample :
    lockedTree.sorted = true
    ∧ (("/sync/b/.syncthing.c", ({ IsRegular := true, ModTime := 0 } : FileStat))
        ∈ lockedTree.entries "/sync")
    ∧ isOldTemporary hashFailWorld (keepDuration 24) (100 * Hour)
        ("/sync/b/.syncthing.c", { IsRegular := true, ModTime := 0 }) = true
    ∧ clean hashFailWorld samplePuller 24 (100 * Hour) (some lockedTree) = [] :=
  ⟨by decide, by decide, by decide, by rfl⟩

/-! ## Properties of the copier stage -/

theorem finisherSends_append (a b : List Call) :
    finisherSends (a ++ b) = finisherSends a ++ finisherSends b := by
  induction a with
  | nil => rfl
  | cons c rest ih => cases c <;> simp [finisherSends, ih]

theorem pullSends_append (a b : List Call) :
    pullSends (a ++ b) = pullSends a ++ pullSends b := by
  induction a with
  | nil => rfl
  | cons c rest ih => cases c <;> simp [pullSends, ih]

theorem copyVisit_trace (w : CopierWorld σ) (state : copyBlocksState) (block : BlockInfo)
    (claim : BlockClaim) (a : CopyAcc σ) :
    (copyVisit w state block claim a).2.trace.filter isCopyOutcome
        = a.trace.filter isCopyOutcome
    ∧ finisherSends (copyVisit w state block claim a).2.trace = finisherSends a.trace
    ∧ pullSends (copyVisit w state block claim a).2.trace = pullSends a.trace
    ∧ (∀ c, c ∈ a.trace → c ∈ (copyVisit w state block claim a).2.trace) := by
  unfold copyVisit
  simp only []
  repeat' split
  all_goals
    refine ⟨?_, ?_, ?_, ?_⟩
    · simp [isCopyOutcome, List.filter_append, List.filter_cons]
    · simp [finisherSends_append, finisherSends]
    · simp [pullSends_append, pullSends]
    · intro c hc; simp [hc]

theorem copyVisit_facts (w : CopierWorld σ) (state : copyBlocksState) (block : BlockInfo)
    (hsticky : ∀ (ctx : String) (err : GoError) (s1 : σ),
      (w.sys (.failed state.sharedPullerState)
        (w.sys (.earlyClose state.sharedPullerState ctx err) s1).2).1 ≠ none)
    (horigin : ∀ (ctx : String) (err : GoError) (s1 : σ),
      (w.sys (.failed state.sharedPullerState)
        (w.sys (.copiedFromOrigin state.sharedPullerState)
          (w.sys (.earlyClose state.sharedPullerState ctx err) s1).2).2).1 ≠ none)
    (claim : BlockClaim) (a : CopyAcc σ) :
    ((copyVisit w state block claim a).1 = false →
      ClaimSkipped w block claim
      ∧ (copyVisit w state block claim a).2.trace.filter isCopyWrite
          = a.trace.filter isCopyWrite)
    ∧ ((copyVisit w state block claim a).1 = true →
      ∃ buf : List Nat,
        Call.readAt (filepathJoin (w.folderPath claim.1) claim.2.1) block.Size
            ((w.BlockSize : Int) * (claim.2.2 : Int))
          ∈ (copyVisit w state block claim a).2.trace
        ∧ ((ClaimCopied w state.sharedPullerState block claim buf
            ∧ (copyVisit w state block claim a).2.trace.filter isCopyWrite
                = a.trace.filter isCopyWrite
                  ++ [.writeAt state.sharedPullerState.tempName buf block.Offset])
          ∨ (w.sys (.failed state.sharedPullerState)
              (copyVisit w state block claim a).2.world).1 ≠ none)) := by
  unfold copyVisit
  simp only []
  split
  · rename_i s1 hc
    have hopen : ∃ s : σ,
        (w.fdCacheGet (filepathJoin (w.folderPath claim.1) claim.2.1) s).1 = true
        ∨ (w.sys (.osOpen (filepathJoin (w.folderPath claim.1) claim.2.1))
            (w.fdCacheGet (filepathJoin (w.folderPath claim.1) claim.2.1) s).2).1 = none :=
      ⟨a.world, Or.inl (by rw [hc])⟩
    split
    · rename_i e s3 hr
      refine ⟨fun _ => ⟨Or.inr ⟨s1, s3, e, hr⟩, ?_⟩, fun h => by simp at h⟩
      simp [isCopyWrite, List.filter_append, List.filter_cons]
    · rename_i buf s3 hr
      split
      · rename_i err s4 hw
        split
        · refine ⟨fun h => by simp at h, fun _ => ⟨buf, by simp, Or.inr (horigin _ _ _)⟩⟩
        · refine ⟨fun h => by simp at h, fun _ => ⟨buf, by simp, Or.inr (hsticky _ _ _)⟩⟩
      · rename_i s4 hw
        have hcopied : ClaimCopied w state.sharedPullerState block claim buf :=
          ⟨hopen, s1, s3, hr, by rw [hw]⟩
        split
        · refine ⟨fun h => by simp at h, fun _ => ⟨buf, by simp, Or.inl ⟨hcopied, ?_⟩⟩⟩
          simp [isCopyWrite, List.filter_append, List.filter_cons]
        · refine ⟨fun h => by simp at h, fun _ => ⟨buf, by simp, Or.inl ⟨hcopied, ?_⟩⟩⟩
          simp [isCopyWrite, List.filter_append, List.filter_cons]
  · rename_i s1 hc
    split
    · rename_i e s2 ho
      refine ⟨fun _ => ⟨Or.inl ⟨a.world, by rw [hc], ?_⟩, ?_⟩, fun h => by simp at h⟩
      · rw [hc]; simp [ho]
      · simp [isCopyWrite, List.filter_append, List.filter_cons]
    · rename_i s2 ho
      have hopen : ∃ s : σ,
          (w.fdCacheGet (filepathJoin (w.folderPath claim.1) claim.2.1) s).1 = true
          ∨ (w.sys (.osOpen (filepathJoin (w.folderPath claim.1) claim.2.1))
              (w.fdCacheGet (filepathJoin (w.folderPath claim.1) claim.2.1) s).2).1 = none :=
        ⟨a.world, Or.inr (by rw [hc]; simp [ho])⟩
      split
      · rename_i e s3 hr
        refine ⟨fun _ => ⟨Or.inr ⟨_, s3, e, hr⟩, ?_⟩, fun h => by simp at h⟩
        simp [isCopyWrite, List.filter_append, List.filter_cons]
      · rename_i buf s3 hr
        split
        · rename_i err s4 hw
          split
          · refine ⟨fun h => by simp at h, fun _ => ⟨buf, by simp, Or.inr (horigin _ _ _)⟩⟩
          · refine ⟨fun h => by simp at h, fun _ => ⟨buf, by simp, Or.inr (hsticky _ _ _)⟩⟩
        · rename_i s4 hw
          have hcopied : ClaimCopied w state.sharedPullerState block claim buf :=
            ⟨hopen, _, s3, hr, by rw [hw]⟩
          split
          · refine ⟨fun h => by simp at h, fun _ => ⟨buf, by simp, Or.inl ⟨hcopied, ?_⟩⟩⟩
            simp [isCopyWrite, List.filter_append, List.filter_cons]
          · refine ⟨fun h => by simp at h, fun _ => ⟨buf, by simp, Or.inl ⟨hcopied, ?_⟩⟩⟩
            simp [isCopyWrite, List.filter_append, List.filter_cons]

theorem Iterate_stop {τ : Type} (visit : BlockClaim → τ → Bool × τ) (claim : BlockClaim)
    (rest : List BlockClaim) (a : τ) (h : (visit claim a).1 = true) :
    Iterate visit (claim :: rest) a = (true, (visit claim a).2) := by
  rw [Iterate]; simp [h]

theorem Iterate_next {τ : Type} (visit : BlockClaim → τ → Bool × τ) (claim : BlockClaim)
    (rest : List BlockClaim) (a : τ) (h : (visit claim a).1 = false) :
    Iterate visit (claim :: rest) a = Iterate visit rest (visit claim a).2 := by
  rw [Iterate]; simp [h]

theorem Iterate_copyVisit_trace (w : CopierWorld σ) (state : copyBlocksState)
    (block : BlockInfo) (claims : List BlockClaim) :
    ∀ a : CopyAcc σ,
      (Iterate (copyVisit w state block) claims a).2.trace.filter isCopyOutcome
          = a.trace.filter isCopyOutcome
      ∧ finisherSends (Iterate (copyVisit w state block) claims a).2.trace
          = finisherSends a.trace
      ∧ pullSends (Iterate (copyVisit w state block) claims a).2.trace = pullSends a.trace
      ∧ (∀ c, c ∈ a.trace → c ∈ (Iterate (copyVisit w state block) claims a).2.trace) := by
  induction claims with
  | nil => intro a; simp [Iterate]
  | cons claim rest ih =>
    intro a
    have hv := copyVisit_trace w state block claim a
    cases h : (copyVisit w state block claim a).1 with
    | true =>
      rw [Iterate_stop _ _ _ _ h]
      exact hv
    | false =>
      rw [Iterate_next _ _ _ _ h]
      have hr := ih (copyVisit w state block claim a).2
      exact ⟨hr.1.trans hv.1, hr.2.1.trans hv.2.1, hr.2.2.1.trans hv.2.2.1,
        fun c hc => hr.2.2.2 c (hv.2.2.2 c hc)⟩

theorem Iterate_copyVisit_facts (w : CopierWorld σ) (state : copyBlocksState)
    (block : BlockInfo)
    (hsticky : ∀ (ctx : String) (err : GoError) (s1 : σ),
      (w.sys (.failed state.sharedPullerState)
        (w.sys (.earlyClose state.sharedPullerState ctx err) s1).2).1 ≠ none)
    (horigin : ∀ (ctx : String) (err : GoError) (s1 : σ),
      (w.sys (.failed state.sharedPullerState)
        (w.sys (.copiedFromOrigin state.sharedPullerState)
          (w.sys (.earlyClose state.sharedPullerState ctx err) s1).2).2).1 ≠ none)
    (claims : List BlockClaim) :
    ∀ a : CopyAcc σ,
      ((Iterate (copyVisit w state block) claims a).1 = false →
        (∀ claim, claim ∈ claims → ClaimSkipped w block claim)
        ∧ (Iterate (copyVisit w state block) claims a).2.trace.filter isCopyWrite
            = a.trace.filter isCopyWrite)
      ∧ ((Iterate (copyVisit w state block) claims a).1 = true →
        ∃ claim, claim ∈ claims ∧ ∃ buf : List Nat,
          Call.readAt (filepathJoin (w.folderPath claim.1) claim.2.1) block.Size
              ((w.BlockSize : Int) * (claim.2.2 : Int))
            ∈ (Iterate (copyVisit w state block) claims a).2.trace
          ∧ ((ClaimCopied w state.sharedPullerState block claim buf
              ∧ (Iterate (copyVisit w state block) claims a).2.trace.filter isCopyWrite
                  = a.trace.filter isCopyWrite
                    ++ [.writeAt state.sharedPullerState.tempName buf block.Offset])
            ∨ (w.sys (.failed state.sharedPullerState)
                (Iterate (copyVisit w state block) claims a).2.world).1 ≠ none)) := by
  induction claims with
  | nil => intro a; simp [Iterate]
  | cons claim rest ih =>
    intro a
    have hv := copyVisit_facts w state block hsticky horigin claim a
    cases h : (copyVisit w state block claim a).1 with
    | true =>
      rw [Iterate_stop _ _ _ _ h]
      refine ⟨fun hf => by simp at hf, fun _ => ?_⟩
      obtain ⟨buf, h1, h2⟩ := hv.2 h
      exact ⟨claim, by simp, buf, h1, h2⟩
    | false =>
      rw [Iterate_next _ _ _ _ h]
      have hr := ih (copyVisit w state block claim a).2
      obtain ⟨hskip, ht⟩ := hv.1 h
      refine ⟨fun hf => ?_, fun hs => ?_⟩
      · obtain ⟨h1, h2⟩ := hr.1 hf
        refine ⟨fun c hc => ?_, h2.trans ht⟩
        rcases List.mem_cons.mp hc with hc | hc
        · rw [hc]; exact hskip
        · exact h1 c hc
      · obtain ⟨c, hc, buf, h1, h2⟩ := hr.2 hs
        refine ⟨c, List.mem_cons_of_mem _ hc, buf, h1, ?_⟩
        rw [ht] at h2
        exact h2

theorem pullSends_filter (t : List Call) : pullSends (t.filter isCopyOutcome) = pullSends t := by
  induction t with
  | nil => rfl
  | cons c rest ih => cases c <;> simp [pullSends, isCopyOutcome, List.filter_cons, ih]

theorem isCopyDone_filter (t : List Call) :
    (t.filter isCopyOutcome).filter isCopyDone = t.filter isCopyDone := by
  induction t with
  | nil => rfl
  | cons c rest ih => cases c <;> simp [isCopyDone, isCopyOutcome, List.filter_cons, ih]

theorem settled_counts (sp : sharedPullerState) (l : List (BlockInfo × Bool)) :
    ((settled sp l).filter isCopyDone).length = (l.filter (fun x => x.2)).length
    ∧ pullSends (settled sp l)
        = (l.filter (fun x => !x.2)).map
            (fun x => { sharedPullerState := sp, block := x.1 }) := by
  induction l with
  | nil => simp [settled, pullSends]
  | cons x rest ih =>
    obtain ⟨b, ok⟩ := x
    obtain ⟨h1, h2⟩ := ih
    cases ok
    · simp [settled, List.filter_cons, isCopyDone, pullSends, h1, h2]
    · simp [settled, List.filter_cons, isCopyDone, pullSends, h1, h2]

theorem settled_total (sp : sharedPullerState) (l : List (BlockInfo × Bool)) :
    ((settled sp l).filter isCopyDone).length + (pullSends (settled sp l)).length
      = l.length := by
  induction l with
  | nil => simp [settled, pullSends]
  | cons x rest ih =>
    obtain ⟨b, ok⟩ := x
    cases ok
    · simp only [settled, List.filter_cons, isCopyDone, pullSends, List.length_cons]
      simp only [Bool.false_eq_true, if_false]
      omega
    · simp only [settled, List.filter_cons, isCopyDone, pullSends, List.length_cons]
      simp only [if_true, List.length_cons]
      omega

theorem copyBlock_oversize (w : CopierWorld σ) (state : copyBlocksState) (block : BlockInfo)
    (s : σ) (h : w.BlockSize < block.Size) :
    (copyBlock w state block s).crashed = true ∧ (copyBlock w state block s).trace = [] := by
  unfold copyBlock
  simp [h]

theorem copyBlock_fields (w : CopierWorld σ) (state : copyBlocksState) (block : BlockInfo)
    (s : σ) (hsize : block.Size ≤ w.BlockSize) :
    (copyBlock w state block s).crashed = false
    ∧ (copyBlock w state block s).success
        = (Iterate (copyVisit w state block) (w.finder block.Hash s).1
            { world := (w.finder block.Hash s).2, trace := [.finderIterate block.Hash] }).1
    ∧ ((copyBlock w state block s).broke = false →
        (w.sys (.failed state.sharedPullerState)
          (Iterate (copyVisit w state block) (w.finder block.Hash s).1
            { world := (w.finder block.Hash s).2,
              trace := [.finderIterate block.Hash] }).2.world).1 = none)
    ∧ (copyBlock w state block s).trace
        = (Iterate (copyVisit w state block) (w.finder block.Hash s).1
            { world := (w.finder block.Hash s).2, trace := [.finderIterate block.Hash] }).2.trace
          ++ .failed state.sharedPullerState
            :: (if (copyBlock w state block s).broke then []
                else settled state.sharedPullerState
                  [(block, (copyBlock w state block s).success)]) := by
  have hnot : ¬ (w.BlockSize < block.Size) := by omega
  unfold copyBlock
  simp only [hnot, if_false]
  split
  · simp
  · rename_i hfail
    split
    · rename_i hs
      simp only [Bool.not_eq_true'] at hs
      simp [hs, hfail, settled]
    · rename_i hs
      simp only [Bool.not_eq_true', Bool.not_eq_false] at hs
      simp [hs, hfail, settled]

theorem copyBlock_trace (w : CopierWorld σ) (state : copyBlocksState) (block : BlockInfo)
    (s : σ) :
    finisherSends (copyBlock w state block s).trace = []
    ∧ (copyBlock w state block s).trace.filter isCopyOutcome
        = if (copyBlock w state block s).crashed then []
          else if (copyBlock w state block s).broke then []
          else settled state.sharedPullerState [(block, (copyBlock w state block s).success)] := by
  by_cases hbig : w.BlockSize < block.Size
  · obtain ⟨h1, h2⟩ := copyBlock_oversize w state block s hbig
    simp [h1, h2, finisherSends]
  · have hsize : block.Size ≤ w.BlockSize := by omega
    obtain ⟨h1, h2, _, _⟩ := Iterate_copyVisit_trace w state block (w.finder block.Hash s).1
      { world := (w.finder block.Hash s).2, trace := [.finderIterate block.Hash] }
    obtain ⟨fc, _, _, ft⟩ := copyBlock_fields w state block s hsize
    rw [ft, fc]
    cases (copyBlock w state block s).broke
    · cases (copyBlock w state block s).success <;>
        simp [finisherSends_append, List.filter_append, h1, h2, finisherSends, isCopyOutcome,
          settled, List.filter_cons]
    · simp [finisherSends_append, List.filter_append, h1, h2, finisherSends, isCopyOutcome,
        List.filter_cons]

theorem copyBlock_outcome (w : CopierWorld σ) (state : copyBlocksState) (block : BlockInfo)
    (hsticky : ∀ (ctx : String) (err : GoError) (s1 : σ),
      (w.sys (.failed state.sharedPullerState)
        (w.sys (.earlyClose state.sharedPullerState ctx err) s1).2).1 ≠ none)
    (horigin : ∀ (ctx : String) (err : GoError) (s1 : σ),
      (w.sys (.failed state.sharedPullerState)
        (w.sys (.copiedFromOrigin state.sharedPullerState)
          (w.sys (.earlyClose state.sharedPullerState ctx err) s1).2).2).1 ≠ none)
    (s : σ) (hsize : block.Size ≤ w.BlockSize)
    (hb : (copyBlock w state block s).broke = false) :
    ((copyBlock w state block s).success = true
      ∧ ∃ claim, claim ∈ (w.finder block.Hash s).1 ∧ ∃ buf : List Nat,
          ClaimCopied w state.sharedPullerState block claim buf
          ∧ Call.readAt (filepathJoin (w.folderPath claim.1) claim.2.1) block.Size
              ((w.BlockSize : Int) * (claim.2.2 : Int)) ∈ (copyBlock w state block s).trace
          ∧ (copyBlock w state block s).trace.filter isCopyWrite
              = [.writeAt state.sharedPullerState.tempName buf block.Offset,
                  .copyDone state.sharedPullerState])
    ∨ ((copyBlock w state block s).success = false
      ∧ (∀ claim, claim ∈ (w.finder block.Hash s).1 → ClaimSkipped w block claim)
      ∧ (copyBlock w state block s).trace.filter isCopyWrite
          = [.pullStarted state.sharedPullerState,
              .pullChanSend { sharedPullerState := state.sharedPullerState, block := block }]) := by
  obtain ⟨_, fs, ff, ft⟩ := copyBlock_fields w state block s hsize
  have hnone := ff hb
  have hf := Iterate_copyVisit_facts w state block hsticky horigin (w.finder block.Hash s).1
    { world := (w.finder block.Hash s).2, trace := [.finderIterate block.Hash] }
  rw [← fs] at hf
  cases hs : (copyBlock w state block s).success with
  | false =>
    right
    obtain ⟨h1, h2⟩ := hf.1 hs
    refine ⟨rfl, h1, ?_⟩
    rw [ft, hb, hs]
    simp [List.filter_append, h2, isCopyWrite, settled, List.filter_cons]
  | true =>
    left
    obtain ⟨c, hc, buf, h1, h2⟩ := hf.2 hs
    rcases h2 with ⟨hcopied, h3⟩ | hfailed
    · refine ⟨rfl, c, hc, buf, hcopied, ?_, ?_⟩
      · rw [ft]; exact List.mem_append_left _ h1
      · rw [ft, hb, hs]
        simp [List.filter_append, h3, isCopyWrite, settled, List.filter_cons]
    · exact absurd hnone hfailed

theorem copyLoop_trace (w : CopierWorld σ) (state : copyBlocksState) (blocks : List BlockInfo) :
    ∀ s : σ,
      finisherSends (copyLoop w state blocks s).trace = []
      ∧ (copyLoop w state blocks s).trace.filter isCopyOutcome
          = settled state.sharedPullerState (copyLoop w state blocks s).processed
      ∧ (∃ later, blocks = (copyLoop w state blocks s).processed.map Prod.fst ++ later)
      ∧ ((copyLoop w state blocks s).crashed = false →
          (copyLoop w state blocks s).broke = false →
          (copyLoop w state blocks s).processed.map Prod.fst = blocks)
      ∧ ((∀ b, b ∈ blocks → b.Size ≤ w.BlockSize) →
          (copyLoop w state blocks s).crashed = false) := by
  induction blocks with
  | nil => intro s; simp [copyLoop, finisherSends, settled]
  | cons block rest ih =>
    intro s
    obtain ⟨hb1, hb2⟩ := copyBlock_trace w state block s
    have hcr : block.Size ≤ w.BlockSize → (copyBlock w state block s).crashed = false :=
      fun h => (copyBlock_fields w state block s h).1
    unfold copyLoop
    simp only []
    cases hc : (copyBlock w state block s).crashed with
    | true =>
      rw [hc] at hb2
      simp only [if_true] at hb2 ⊢
      refine ⟨hb1, by simpa [settled] using hb2, ⟨block :: rest, by simp⟩, by simp,
        fun hall => ?_⟩
      have := hcr (hall block (by simp))
      rw [hc] at this
      exact absurd this (by simp)
    | false =>
      rw [hc] at hb2
      simp only [Bool.false_eq_true, if_false] at hb2 ⊢
      cases hbr : (copyBlock w state block s).broke with
      | true =>
        rw [hbr] at hb2
        simp only [if_true] at hb2 ⊢
        exact ⟨hb1, by simpa [settled] using hb2, ⟨block :: rest, by simp⟩, by simp,
          by simp⟩
      | false =>
        rw [hbr] at hb2
        simp only [Bool.false_eq_true, if_false] at hb2 ⊢
        obtain ⟨h1, h2, ⟨later, h3⟩, h4, h5⟩ := ih (copyBlock w state block s).world
        refine ⟨by simp [finisherSends_append, hb1, h1], ?_, ⟨later, ?_⟩,
          fun hcrash hbroke => ?_, fun hall => h5 (fun b hb => hall b (by simp [hb]))⟩
        · rw [List.filter_append, hb2, h2]
          cases (copyBlock w state block s).success <;> simp [settled]
        · simp only [List.map_cons, List.cons_append]
          rw [← h3]
        · simp only [List.map_cons]
          rw [h4 hcrash hbroke]

theorem copierBody_oversize (w : CopierWorld σ) (state : copyBlocksState) (s : σ)
    (block : BlockInfo) (rest : List BlockInfo) (hblocks : state.blocks = block :: rest)
    (hopen : (w.sys (.tempFile state.sharedPullerState) s).1 = none)
    (hbig : w.BlockSize < block.Size) :
    (copierBody w state s).crashed = true
    ∧ (copierBody w state s).trace = [.tempFile state.sharedPullerState, .newFdCache] := by
  have hloop : ∀ s1 : σ, (copyLoop w state state.blocks s1).crashed = true
      ∧ (copyLoop w state state.blocks s1).trace = [] := by
    intro s1
    rw [hblocks]
    unfold copyLoop
    simp [(copyBlock_oversize w state block s1 hbig).1, (copyBlock_oversize w state block s1 hbig).2]
  unfold copierBody
  simp only []
  split
  · rename_i e s1 h
    rw [h] at hopen
    simp at hopen
  · rename_i s1 h
    simp [(hloop _).1, (hloop _).2]

/-- Claim C11, as amended. A `copyBlocksState` the copier consumes, none of
whose pending blocks is larger than `BlockSize`, is forwarded to the finisher
channel exactly once when its temp file opens, whether the block loop ends by
`break` (the state is failed, for instance by a temp write failing mid-file) or
all blocks are processed; when opening the temp file fails the copier moves on
to the next state and forwards nothing.  The goroutine does not end in a
run-time panic on such a state. -/
theorem copierBody_forward (w : CopierWorld σ) (state : copyBlocksState) (s : σ)
    (hsize : ∀ b, b ∈ state.blocks → b.Size ≤ w.BlockSize) :
    (copierBody w state s).crashed = false
    ∧ finisherSends (copierBody w state s).trace
        = if (w.sys (.tempFile state.sharedPullerState) s).1 = none
          then [state.sharedPullerState] else [] := by
  have hloop : ∀ s1 : σ, (copyLoop w state state.blocks s1).crashed = false :=
    fun s1 => (copyLoop_trace w state state.blocks s1).2.2.2.2 hsize
  unfold copierBody
  simp only []
  split
  · rename_i h
    simp [h, finisherSends]
  · rename_i h
    simp [h, hloop, finisherSends, finisherSends_append,
      (copyLoop_trace w state state.blocks _).1]

/-- Witness for claim C11: in `noDeviceWorld` the temp file of `e.bin` opens,
both pending blocks have four bytes, and the state is forwarded once although
the puller fails it meanwhile. -/
theorem copierBody_forward_witness :
    (∀ b, b ∈ sampleCopyState.blocks → b.Size ≤ noDeviceWorld.BlockSize)
    ∧ (copierBody noDeviceWorld sampleCopyState none).crashed = false
    ∧ finisherSends (copierBody noDeviceWorld sampleCopyState none).trace
        = [sampleCopyState.sharedPullerState] := by
  have hsize : ∀ b, b ∈ sampleCopyState.blocks → b.Size ≤ noDeviceWorld.BlockSize := by
    intro b hb
    simp only [sampleCopyState, newCopyBlocksState, sampleBlocks, List.mem_cons,
      List.mem_singleton, List.not_mem_nil, or_false] at hb
    rcases hb with hb | hb <;> rw [hb] <;> decide
  exact ⟨hsize, (copierBody_forward noDeviceWorld sampleCopyState none hsize).1,
    (copierBody_forward noDeviceWorld sampleCopyState none hsize).2.trans rfl⟩

/-- Counterexample to claim C11 as stated: in a folder where the temp file
cannot be opened, the copier consumes the state, calls `tempFile()` and
nothing else, and the state is never sent to the finisher. -/
theorem copierRoutine_unopened_counterexample :
    (noTempWorld.sys (.tempFile sampleCopyState.sharedPullerState) ()).1 = some (.other 13)
    ∧ (copierRoutine noTempWorld [sampleCopyState] ()).crashed = false
    ∧ (copierRoutine noTempWorld [sampleCopyState] ()).trace
        = [.tempFile sampleCopyState.sharedPullerState]
    ∧ finisherSends (copierRoutine noTempWorld [sampleCopyState] ()).trace = [] :=
  ⟨rfl, rfl, rfl, rfl⟩

/-- Claim C12, as amended. Where `failed()` reports an error once `earlyClose`
was called and no pending block is larger than `BlockSize`: for every block
that passes the `failed()` check after its `Iterate`, either (a) some claim the
finder gave for the block's hash was opened (or found in the descriptor cache),
`ReadAt` of `block.Size` bytes at `BlockSize * index` of that file was called
and returned `buf`, `WriteAt(buf, block.Offset)` on the temp file returned no
error where it was called, and the writes and settling calls for the block are
that one `WriteAt` and one `copyDone`, with no `pullBlockState` sent; or (b)
every claim the finder gave failed at `os.Open` or at `ReadAt`, and the writes
and settling calls for the block are one `pullStarted` and one `pullBlockState`
carrying the block.  The loop does not end in a run-time panic; the blocks that
pass the check are a leading part of the pending list and are settled in order.
When the loop is not left by `break`, they are the whole list: the `copyDone`
calls plus the `pullBlockState`s sent number `len(blocks)`, and the
`pullBlockState`s are the blocks with no successful claim, in pending-list
order. -/
theorem copyLoop_settles (w : CopierWorld σ) (state : copyBlocksState)
    (blocks : List BlockInfo) (s : σ)
    (hsticky : ∀ (ctx : String) (err : GoError) (s1 : σ),
      (w.sys (.failed state.sharedPullerState)
        (w.sys (.earlyClose state.sharedPullerState ctx err) s1).2).1 ≠ none)
    (horigin : ∀ (ctx : String) (err : GoError) (s1 : σ),
      (w.sys (.failed state.sharedPullerState)
        (w.sys (.copiedFromOrigin state.sharedPullerState)
          (w.sys (.earlyClose state.sharedPullerState ctx err) s1).2).2).1 ≠ none)
    (hsize : ∀ b, b ∈ blocks → b.Size ≤ w.BlockSize) :
    (∀ (block : BlockInfo) (s1 : σ), block.Size ≤ w.BlockSize →
      (copyBlock w state block s1).broke = false →
      ((copyBlock w state block s1).success = true
        ∧ ∃ claim, claim ∈ (w.finder block.Hash s1).1 ∧ ∃ buf : List Nat,
            ClaimCopied w state.sharedPullerState block claim buf
            ∧ Call.readAt (filepathJoin (w.folderPath claim.1) claim.2.1) block.Size
                ((w.BlockSize : Int) * (claim.2.2 : Int)) ∈ (copyBlock w state block s1).trace
            ∧ (copyBlock w state block s1).trace.filter isCopyWrite
                = [.writeAt state.sharedPullerState.tempName buf block.Offset,
                    .copyDone state.sharedPullerState])
      ∨ ((copyBlock w state block s1).success = false
        ∧ (∀ claim, claim ∈ (w.finder block.Hash s1).1 → ClaimSkipped w block claim)
        ∧ (copyBlock w state block s1).trace.filter isCopyWrite
            = [.pullStarted state.sharedPullerState,
                .pullChanSend
                  { sharedPullerState := state.sharedPullerState, block := block }]))
    ∧ (copyLoop w state blocks s).crashed = false
    ∧ (copyLoop w state blocks s).trace.filter isCopyOutcome
        = settled state.sharedPullerState (copyLoop w state blocks s).processed
    ∧ (∃ later, blocks = (copyLoop w state blocks s).processed.map Prod.fst ++ later)
    ∧ ((copyLoop w state blocks s).broke = false →
        (copyLoop w state blocks s).processed.map Prod.fst = blocks
        ∧ ((copyLoop w state blocks s).trace.filter isCopyDone).length
            + (pullSends (copyLoop w state blocks s).trace).length = blocks.length
        ∧ pullSends (copyLoop w state blocks s).trace
            = ((copyLoop w state blocks s).processed.filter (fun x => !x.2)).map
                (fun x => { sharedPullerState := state.sharedPullerState, block := x.1 })) := by
  obtain ⟨_, h2, h3, h4, h5⟩ := copyLoop_trace w state blocks s
  have hc := h5 hsize
  refine ⟨fun block s1 hb hbr => copyBlock_outcome w state block hsticky horigin s1 hb hbr,
    hc, h2, h3, fun hbroke => ⟨h4 hc hbroke, ?_, ?_⟩⟩
  · have hlen : (copyLoop w state blocks s).processed.length = blocks.length := by
      have := congrArg List.length (h4 hc hbroke)
      simpa using this
    rw [← isCopyDone_filter, ← pullSends_filter, h2, settled_total, hlen]
  · rw [← pullSends_filter, h2, (settled_counts _ _).2]

/-- Witness for claim C12: in `noDeviceWorld`, where the first error of a state
is kept, the first sample block is copied from `c.bin` and the second, which
has no local claim, is handed to the puller; the loop is not left by `break`
and both blocks are settled. -/
theorem copyLoop_settles_witness :
    (∀ (ctx : String) (err : GoError) (s1 : Option GoError),
      (noDeviceWorld.sys (.failed sampleCopyState.sharedPullerState)
        (noDeviceWorld.sys (.earlyClose sampleCopyState.sharedPullerState ctx err) s1).2).1
          ≠ none)
    ∧ (∀ b, b ∈ sampleBlocks → b.Size ≤ noDeviceWorld.BlockSize)
    ∧ (copyLoop noDeviceWorld sampleCopyState sampleBlocks none).broke = false
    ∧ (copyLoop noDeviceWorld sampleCopyState sampleBlocks none).trace.filter isCopyWrite
        = [.writeAt "/sync/.syncthing.e.bin" [7, 7, 7, 7] 0,
            .copyDone sampleCopyState.sharedPullerState,
            .pullStarted sampleCopyState.sharedPullerState,
            .pullChanSend { sharedPullerState := sampleCopyState.sharedPullerState,
                            block := { Offset := 4, Size := 4, Hash := [1] } }]
    ∧ ((copyLoop noDeviceWorld sampleCopyState sampleBlocks none).trace.filter
          isCopyDone).length
        + (pullSends (copyLoop noDeviceWorld sampleCopyState sampleBlocks none).trace).length
        = sampleBlocks.length := by
  have hsticky : ∀ (ctx : String) (err : GoError) (s1 : Option GoError),
      (noDeviceWorld.sys (.failed sampleCopyState.sharedPullerState)
        (noDeviceWorld.sys (.earlyClose sampleCopyState.sharedPullerState ctx err) s1).2).1
          ≠ none := by
    intro ctx err s1
    cases s1 <;> simp [noDeviceWorld]
  have horigin : ∀ (ctx : String) (err : GoError) (s1 : Option GoError),
      (noDeviceWorld.sys (.failed sampleCopyState.sharedPullerState)
        (noDeviceWorld.sys (.copiedFromOrigin sampleCopyState.sharedPullerState)
          (noDeviceWorld.sys (.earlyClose sampleCopyState.sharedPullerState ctx err) s1).2).2).1
          ≠ none := by
    intro ctx err s1
    cases s1 <;> simp [noDeviceWorld]
  have hsize : ∀ b, b ∈ sampleBlocks → b.Size ≤ noDeviceWorld.BlockSize := by
    intro b hb
    simp only [sampleBlocks, List.mem_cons, List.mem_singleton, List.not_mem_nil,
      or_false] at hb
    rcases hb with hb | hb <;> rw [hb] <;> decide
  exact ⟨hsticky, hsize, rfl, rfl,
    ((copyLoop_settles noDeviceWorld sampleCopyState sampleBlocks none hsticky horigin
      hsize).2.2.2.2 rfl).2.1⟩

/-- Counterexample to claim C12 as stated: neither pending block of `f.bin` has
a local claim.  The first goes to a puller, which finds no device and fails the
state with `errNoDevice`; the `failed()` check after the second block's
`Iterate` then ends the loop.  The copier makes no temp write at all, yet
`copyDone` calls plus `pullBlockState`s sent number one for two pending
blocks, and the second block is neither copied nor handed to a puller. -/
theorem copyLoop_no_device_counterexample :
    (copyLoop noDeviceWorld strandedCopyState strandedBlocks none).trace
      = [.finderIterate [1], .failed strandedCopyState.sharedPullerState,
          .pullStarted strandedCopyState.sharedPullerState,
          .pullChanSend { sharedPullerState := strandedCopyState.sharedPullerState,
                          block := { Offset := 0, Size := 4, Hash := [1] } },
          .finderIterate [3], .failed strandedCopyState.sharedPullerState]
    ∧ (copyLoop noDeviceWorld strandedCopyState strandedBlocks none).crashed = false
    ∧ (copyLoop noDeviceWorld strandedCopyState strandedBlocks none).broke = true
    ∧ (pullerBody noDeviceWorld.toWorld samplePuller
          { sharedPullerState := strandedCopyState.sharedPullerState,
            block := { Offset := 0, Size := 4, Hash := [1] } } none).2
        = [.failed strandedCopyState.sharedPullerState, .availability "default" "f.bin",
            .leastBusy [],
            .earlyClose strandedCopyState.sharedPullerState "pull" errNoDevice]
    ∧ ((copyLoop noDeviceWorld strandedCopyState strandedBlocks none).trace.filter
          isCopyDone).length
        + (pullSends (copyLoop noDeviceWorld strandedCopyState strandedBlocks none).trace).length
        = 1
    ∧ strandedBlocks.length = 2 :=
  ⟨rfl, rfl, rfl, rfl, rfl, rfl⟩

end Syncthing
